import Mathlib

/-!
# Verification of `peter-bird.com/config` (config.go)

The package has two exported functions:

* `GetConfigFilePath` (config.go 54-71) resolves the configuration path from the
  `-config` command-line flag, the `CONFIG_FILE` environment variable and a default;
* `LoadConfig[T]` (config.go 35-49) opens a file and decodes its JSON content into a `T`.

Both are stateful in Go (process-wide flag set, filesystem).  They are embedded here
with explicit state passing.  The Go standard library they call (`flag`, `os`,
`encoding/json`) is modelled by the definitions of the sections "Go runtime".
Go strings are modelled by Lean strings; every byte the modelled library code
inspects (`-`, `=`, JSON punctuation) is ASCII, so indexing by character agrees
with Go's indexing by byte on them.
-/

namespace Config

/-! ## Constants (config.go 26-31) -/

def CONFIG_FLAG : String := "config"
def CONFIG_HELP : String := "Path to configuration file"
def ENV_VAR : String := "CONFIG_FILE"
def DEFAULT_FILE : String := "./config/config.json"

/-! ## Go runtime: package `flag` and `os.Getenv`

`flag.CommandLine` is a `FlagSet` named after the program, with error handling
`ExitOnError`: a command line that `Parse` rejects ends the process with status 2
(status 0 for `-h` and `-help`).  `Var` panics when the name it is given is already
defined on the set.  The flag sets modelled hold string flags, the kind config.go
defines; flags of other kinds that a host program may define are left out. -/

/-- Values a goroutine can panic with inside `flag.Var`. -/
inductive PanicValue where
  /-- Message `flag "<name>" begins with -`. -/
  | flagBeginsWithMinus (flagName : String)
  /-- Message `flag "<name>" contains =`. -/
  | flagContainsEquals (flagName : String)
  /-- Message `<set> flag redefined: <name>`. -/
  | flagRedefined (setName flagName : String)
  deriving DecidableEq, Repr

deriving instance DecidableEq for Except

/-- Ways a call can end without returning to its caller. -/
inductive Abort where
  /-- The goroutine panics. -/
  | panic (v : PanicValue)
  /-- The process terminates through `os.Exit code`. -/
  | exit (code : Nat)
  /-- The bounded rendering of a Go `for` loop used up its bound
  (shown impossible for `FlagSet.Parse` by `FlagSet.Parse_terminates`). -/
  | outOfFuel
  deriving DecidableEq, Repr

/-- Errors `parseOne` reports (`flag.ErrHelp` and the errors built by `failf`). -/
inductive FlagError where
  | ErrHelp
  | badFlagSyntax (arg : String)
  | providedButNotDefined (flagName : String)
  | needsAnArgument (flagName : String)
  deriving DecidableEq, Repr

/-- A `flag.Flag` holding a string value (the only kind config.go defines). -/
structure Flag where
  Name : String
  Usage : String
  Value : String
  DefValue : String
  deriving DecidableEq, Repr

/-- A `flag.FlagSet` with error handling `ExitOnError`, as `flag.CommandLine` is. -/
structure FlagSet where
  name : String
  parsed : Bool
  actual : List String
  formal : List Flag
  args : List String
  deriving DecidableEq, Repr

/-- The process state `GetConfigFilePath` reads and writes. -/
structure Proc where
  /-- Go `os.Args`, without the program name (`os.Args[1:]`). -/
  Args : List String
  /-- The environment, one pair per `KEY=value` entry. -/
  environ : List (String × String)
  /-- Go `flag.CommandLine`. -/
  CommandLine : FlagSet
  deriving DecidableEq, Repr

/-- Go `os.Getenv`: the value of the variable, empty when it is not present. -/
def Getenv (p : Proc) (key : String) : String :=
  (p.environ.lookup key).getD ""

/-- The flag of a given name in `f.formal`. -/
def FlagSet.find (f : FlagSet) (flagName : String) : Option Flag :=
  f.formal.find? (fun fl => fl.Name = flagName)

/-- Dereference of the `*string` returned by `flag.String`; the pointer is
represented by the name of the flag whose variable it addresses. -/
def FlagSet.deref (f : FlagSet) (ptr : String) : String :=
  match f.find ptr with
  | some fl => fl.Value
  | none => ""

/-- Go `(*FlagSet).Var` for a string value. -/
def FlagSet.Var (f : FlagSet) (value flagName usage : String) : Except Abort FlagSet :=
  if flagName.data.head? = some '-' then
    .error (.panic (.flagBeginsWithMinus flagName))
  else if '=' ∈ flagName.data then
    .error (.panic (.flagContainsEquals flagName))
  else
    match f.find flagName with
    | some _ => .error (.panic (.flagRedefined f.name flagName))
    | none =>
      .ok { f with formal := { Name := flagName, Usage := usage, Value := value, DefValue := value } :: f.formal }

/-- Go `(*FlagSet).String`: defines the flag and returns the pointer to its variable. -/
def FlagSet.defString (f : FlagSet) (flagName value usage : String) : Except Abort (String × FlagSet) :=
  match f.Var value flagName usage with
  | .error a => .error a
  | .ok f1 => .ok (flagName, f1)

/-- Go `flag.Value.Set` on the string flag of the given name. -/
def FlagSet.setValue (f : FlagSet) (flagName value : String) : FlagSet :=
  { f with
    formal := f.formal.map (fun fl => if fl.Name = flagName then { fl with Value := value } else fl)
    actual := if flagName ∈ f.actual then f.actual else flagName :: f.actual }

/-- Second half of Go `(*FlagSet).parseOne`: `s` is the argument, `rest` the arguments
after it and `name` the text of `s` after its one or two leading minus signs. -/
def FlagSet.parseFlag (f : FlagSet) (s : String) (rest : List String) (name : List Char) :
    Bool × Option FlagError × FlagSet :=
  if name.length = 0 ∨ name.head? = some '-' ∨ name.head? = some '=' then
    (false, some (.badFlagSyntax s), f)
  else
    -- it is a flag; does it have an argument?
    let f1 := { f with args := rest }
    -- the first '=' of name (it is not at index 0, excluded above)
    let hasValue := decide ('=' ∈ name)
    let value := String.mk ((name.dropWhile (fun c => c ≠ '=')).drop 1)
    let name := String.mk (name.takeWhile (fun c => c ≠ '='))
    match f1.find name with
    | none =>
      if name = "help" ∨ name = "h" then (false, some .ErrHelp, f1)
      else (false, some (.providedButNotDefined name), f1)
    | some _ =>
      if hasValue then (true, none, f1.setValue name value)
      else
        -- the value is the next argument
        match rest with
        | v :: rest1 => (true, none, { f1 with args := rest1 }.setValue name v)
        | [] => (false, some (.needsAnArgument name), f1)

/-- Go `(*FlagSet).parseOne`: consumes one flag from `f.args`; returns whether a
flag was seen and the error, if any. -/
def FlagSet.parseOne (f : FlagSet) : Bool × Option FlagError × FlagSet :=
  match f.args with
  | [] => (false, none, f)
  | s :: rest =>
    if s.data.length < 2 ∨ s.data.head? ≠ some '-' then (false, none, f)
    else if s.data.get? 1 = some '-' then
      if s.data.length = 2 then
        -- "--" terminates the flags
        (false, none, { f with args := rest })
      else f.parseFlag s rest (s.data.drop 2)
    else f.parseFlag s rest (s.data.drop 1)

/-- The loop of Go `(*FlagSet).Parse` under `ExitOnError`, bounded by `fuel`. -/
def FlagSet.parseLoop : Nat → FlagSet → Except Abort FlagSet
  | 0, _ => .error .outOfFuel
  | fuel + 1, f =>
    match f.parseOne with
    | (true, _, f1) => FlagSet.parseLoop fuel f1
    | (false, none, f1) => .ok f1
    | (false, some .ErrHelp, _) => .error (.exit 0)
    | (false, some _, _) => .error (.exit 2)

/-- Go `(*FlagSet).Parse`. -/
def FlagSet.Parse (f : FlagSet) (arguments : List String) : Except Abort FlagSet :=
  FlagSet.parseLoop (arguments.length + 1) { f with parsed := true, args := arguments }

/-- Go `flag.String`: `CommandLine.String`. -/
def flagString (p : Proc) (flagName value usage : String) : Except Abort (String × Proc) :=
  match p.CommandLine.defString flagName value usage with
  | .error a => .error a
  | .ok (ptr, f1) => .ok (ptr, { p with CommandLine := f1 })

/-- Go `flag.Parse`: `CommandLine.Parse(os.Args[1:])`. -/
def flagParse (p : Proc) : Except Abort Proc :=
  match p.CommandLine.Parse p.Args with
  | .error a => .error a
  | .ok f1 => .ok { p with CommandLine := f1 }

/-! ## `GetConfigFilePath` (config.go 54-71) -/

/-- Go `GetConfigFilePath`: the flag, then the environment variable, then the default. -/
def GetConfigFilePath (p : Proc) : Except Abort (String × Proc) :=
  -- Command-line flag
  match flagString p CONFIG_FLAG "" CONFIG_HELP with
  | .error a => .error a
  | .ok (cmdConfigFile, p1) =>
    match flagParse p1 with
    | .error a => .error a
    | .ok p2 =>
      if p2.CommandLine.deref cmdConfigFile ≠ "" then
        .ok (p2.CommandLine.deref cmdConfigFile, p2)
      else
        -- Environment variable
        let envConfigFile := Getenv p2 ENV_VAR
        if envConfigFile ≠ "" then
          .ok (envConfigFile, p2)
        else
          -- Default value
          .ok (DEFAULT_FILE, p2)

/-- A process that has not touched `flag.CommandLine` yet. -/
def freshProc (prog : String) (args : List String) (env : List (String × String)) : Proc :=
  { Args := args, environ := env,
    CommandLine := { name := prog, parsed := false, actual := [], formal := [], args := [] } }

/-! ## Go runtime: errors, `os.Open`, `(*File).Close` -/

/-- The Go `error` values `LoadConfig` can meet. -/
inductive GoError where
  /-- An `*fs.PathError` of `os.Open`: operation, path and cause. -/
  | PathError (op path cause : String)
  /-- The `io.EOF` of a decoder that found no value. -/
  | EOF
  /-- The `io.ErrUnexpectedEOF` of a decoder whose input stops inside a value. -/
  | ErrUnexpectedEOF
  /-- A `*json.SyntaxError`; message and offset are not modelled. -/
  | SyntaxError
  /-- A `*json.UnmarshalTypeError`: description of the JSON value and the field. -/
  | UnmarshalTypeError (value field : String)
  /-- Any other error value, such as one returned by a `json.Unmarshaler`. -/
  | other (msg : String)
  /-- The bounded rendering of the JSON scanner used up its bound
  (shown impossible for `readValue` by `readValue_terminates`). -/
  | scanOutOfFuel
  deriving DecidableEq, Repr

/-- An `*os.File` open for reading. -/
structure File where
  fd : Nat
  content : String
  deriving DecidableEq, Repr

/-- What happens to file handles, in order. -/
inductive Event where
  | opened (fd : Nat) (path : String)
  | decoded (fd : Nat)
  | closed (fd : Nat)
  deriving DecidableEq, Repr

/-- The filesystem: what `os.Open` finds at each path, and the handle events so far. -/
structure World where
  files : String → Except GoError String
  trace : List Event

/-- Is the event a successful open? -/
def Event.isOpen : Event → Bool
  | .opened _ _ => true
  | _ => false

/-- Is the event a close? -/
def Event.isClose : Event → Bool
  | .closed _ => true
  | _ => false

/-- Is the event a run of the decoder? -/
def Event.isDecode : Event → Bool
  | .decoded _ => true
  | _ => false

/-- Number of successful opens so far. -/
def World.opens (w : World) : Nat := w.trace.countP Event.isOpen

/-- Number of closes so far. -/
def World.closes (w : World) : Nat := w.trace.countP Event.isClose

/-- Number of decoder runs so far. -/
def World.decodes (w : World) : Nat := w.trace.countP Event.isDecode

/-- Go `os.Open`: a fresh handle on success, the error otherwise (no handle acquired). -/
def osOpen (w : World) (path : String) : Except GoError File × World :=
  match w.files path with
  | .error err => (.error err, w)
  | .ok content =>
    (.ok { fd := w.opens, content := content },
     { w with trace := w.trace ++ [.opened w.opens path] })

/-- Go `(*File).Close`. -/
def File.Close (file : File) (w : World) : World :=
  { w with trace := w.trace ++ [.closed file.fd] }

/-- What `encoding/json` knows of a destination type `T` (in Go, through reflection):
its zero value and how a document read from a stream is stored into a `T`.
`Decode content v` returns the value left in the destination, which Go may have
filled in part when it reports an error. -/
structure JSONTarget (T : Type) where
  zero : T
  Decode : String → T → T × Option GoError

/-- Go `json.NewDecoder(file).Decode(&config)`. -/
def decoderDecode {T : Type} (d : JSONTarget T) (file : File) (config : T) (w : World) :
    (T × Option GoError) × World :=
  (d.Decode file.content config, { w with trace := w.trace ++ [.decoded file.fd] })

/-! ## Go runtime: `encoding/json`, reading one value from a stream

`(*Decoder).Decode` first reads one complete JSON value from the stream, checking its
syntax, and only then stores it into the destination.  Input that stops inside a value
gives `io.ErrUnexpectedEOF`, input holding only white space gives `io.EOF`, and what
follows the first value is left unread. -/

/-- A JSON value; a number keeps its literal text, as Go's decoder does. -/
inductive JSON where
  | null
  | bool (b : Bool)
  | number (lit : String)
  | string (s : String)
  | array (elems : List JSON)
  | object (members : List (String × JSON))

/-- Go `isSpace` of the JSON scanner. -/
def isSpace (c : Char) : Bool :=
  c = ' ' || c = '\t' || c = '\r' || c = '\n'

/-- Drops leading white space. -/
def skipSpace (cs : List Char) : List Char :=
  cs.dropWhile isSpace

/-- Reads the remaining characters of `true`, `false` or `null`. -/
def scanLiteral : List Char → List Char → Except GoError (List Char)
  | [], cs => .ok cs
  | _ :: _, [] => .error .ErrUnexpectedEOF
  | l :: ls, c :: cs => if c = l then scanLiteral ls cs else .error .SyntaxError

/-- Reads one or more digits. -/
def scanDigits1 (cs : List Char) : Except GoError (List Char × List Char) :=
  match cs with
  | [] => .error .ErrUnexpectedEOF
  | c :: _ =>
    if c.isDigit then .ok (cs.takeWhile Char.isDigit, cs.dropWhile Char.isDigit)
    else .error .SyntaxError

/-- Reads the optional exponent of a number whose text so far is `acc`. -/
def scanExp (acc cs : List Char) : Except GoError (List Char × List Char) :=
  match cs with
  | [] => .ok (acc, [])
  | c :: r =>
    if c = 'e' ∨ c = 'E' then
      match r with
      | [] => .error .ErrUnexpectedEOF
      | c1 :: r1 =>
        if c1 = '+' ∨ c1 = '-' then
          match scanDigits1 r1 with
          | .error e => .error e
          | .ok (ds, r2) => .ok (acc ++ c :: c1 :: ds, r2)
        else
          match scanDigits1 r with
          | .error e => .error e
          | .ok (ds, r2) => .ok (acc ++ c :: ds, r2)
    else .ok (acc, cs)

/-- Reads the optional fraction and exponent of a number whose text so far is `acc`. -/
def scanFrac (acc cs : List Char) : Except GoError (List Char × List Char) :=
  match cs with
  | [] => .ok (acc, [])
  | c :: r =>
    if c = '.' then
      match scanDigits1 r with
      | .error e => .error e
      | .ok (ds, r2) => scanExp (acc ++ c :: ds) r2
    else scanExp acc cs

/-- Reads the integer part of a number after its optional sign `acc`. -/
def scanInt (acc cs : List Char) : Except GoError (List Char × List Char) :=
  match cs with
  | [] => .error .ErrUnexpectedEOF
  | c :: r =>
    if c = '0' then scanFrac (acc ++ [c]) r
    else if c.isDigit then
      scanFrac (acc ++ c :: r.takeWhile Char.isDigit) (r.dropWhile Char.isDigit)
    else .error .SyntaxError

/-- Reads a number literal; returns its text and the rest of the input. -/
def scanNumber (cs : List Char) : Except GoError (List Char × List Char) :=
  match cs with
  | [] => .error .ErrUnexpectedEOF
  | c :: r => if c = '-' then scanInt [c] r else scanInt [] cs

/-- Value of a hexadecimal digit. -/
def hexVal (c : Char) : Option Nat :=
  if c.isDigit then some (c.toNat - '0'.toNat)
  else if 'a'.toNat ≤ c.toNat ∧ c.toNat ≤ 'f'.toNat then some (c.toNat - 'a'.toNat + 10)
  else if 'A'.toNat ≤ c.toNat ∧ c.toNat ≤ 'F'.toNat then some (c.toNat - 'A'.toNat + 10)
  else none

/-- The character a one-letter escape stands for. -/
def unescape (c : Char) : Option Char :=
  if c = '"' then some '"'
  else if c = '\\' then some '\\'
  else if c = '/' then some '/'
  else if c = 'b' then some (Char.ofNat 8)
  else if c = 'f' then some (Char.ofNat 12)
  else if c = 'n' then some '\n'
  else if c = 'r' then some '\r'
  else if c = 't' then some '\t'
  else none

/-- Reads a string after its opening quote, up to and including the closing quote.
Returns the code units of the string (a `\u` escape gives its 16-bit value, which
may be half of a surrogate pair) and the rest of the input. -/
def scanString : List Char → Except GoError (List Nat × List Char)
  | [] => .error .ErrUnexpectedEOF
  | c :: rest =>
    if c = '"' then .ok ([], rest)
    else if c = '\\' then
      match rest with
      | [] => .error .ErrUnexpectedEOF
      | e :: rest1 =>
        if e = 'u' then
          match rest1 with
          | a :: b :: c1 :: d :: rest2 =>
            match hexVal a, hexVal b, hexVal c1, hexVal d with
            | some x, some y, some z, some u =>
              match scanString rest2 with
              | .error err => .error err
              | .ok (us, r) => .ok ((((x * 16 + y) * 16 + z) * 16 + u) :: us, r)
            | _, _, _, _ => .error .SyntaxError
          | _ =>
            if rest1.all (fun h => (hexVal h).isSome) then .error .ErrUnexpectedEOF
            else .error .SyntaxError
        else
          match unescape e with
          | none => .error .SyntaxError
          | some ch =>
            match scanString rest1 with
            | .error err => .error err
            | .ok (us, r) => .ok (ch.toNat :: us, r)
    else if c.toNat < 32 then .error .SyntaxError
    else
      match scanString rest with
      | .error err => .error err
      | .ok (us, r) => .ok (c.toNat :: us, r)

/-- Go `unquote`: joins surrogate pairs; a lone surrogate becomes U+FFFD. -/
def unquoteUnits : List Nat → List Char
  | [] => []
  | [u] => if 0xD800 ≤ u ∧ u < 0xE000 then [Char.ofNat 0xFFFD] else [Char.ofNat u]
  | u :: v :: us =>
    if 0xD800 ≤ u ∧ u < 0xDC00 ∧ 0xDC00 ≤ v ∧ v < 0xE000 then
      Char.ofNat (0x10000 + (u - 0xD800) * 0x400 + (v - 0xDC00)) :: unquoteUnits us
    else if 0xD800 ≤ u ∧ u < 0xE000 then Char.ofNat 0xFFFD :: unquoteUnits (v :: us)
    else Char.ofNat u :: unquoteUnits (v :: us)

/-- Reads a string after its opening quote; returns the decoded string. -/
def scanQuoted (cs : List Char) : Except GoError (String × List Char) :=
  match scanString cs with
  | .error e => .error e
  | .ok (us, r) => .ok (String.mk (unquoteUnits us), r)

/-- Reads a string, a number or a literal whose first character is `c`. -/
def scanScalar (c : Char) (rest : List Char) : Except GoError (JSON × List Char) :=
  if c = '"' then
    match scanQuoted rest with
    | .error e => .error e
    | .ok (str, r) => .ok (.string str, r)
  else if c = '-' ∨ c.isDigit then
    match scanNumber (c :: rest) with
    | .error e => .error e
    | .ok (lit, r) => .ok (.number (String.mk lit), r)
  else if c = 't' then
    match scanLiteral ['r', 'u', 'e'] rest with
    | .error e => .error e
    | .ok r => .ok (.bool true, r)
  else if c = 'f' then
    match scanLiteral ['a', 'l', 's', 'e'] rest with
    | .error e => .error e
    | .ok r => .ok (.bool false, r)
  else if c = 'n' then
    match scanLiteral ['u', 'l', 'l'] rest with
    | .error e => .error e
    | .ok r => .ok (.null, r)
  else .error .SyntaxError

/-- Go `maxNestingDepth` of the JSON scanner. -/
def maxNestingDepth : Nat := 10000

mutual
/-- Reads one JSON value at nesting depth `depth`. -/
def scanValue : Nat → Nat → List Char → Except GoError (JSON × List Char)
  | 0, _, _ => .error .scanOutOfFuel
  | fuel + 1, depth, cs =>
    match skipSpace cs with
    | [] => .error .ErrUnexpectedEOF
    | c :: rest =>
      if c = '{' then
        if maxNestingDepth < depth + 1 then .error .SyntaxError
        else
          match skipSpace rest with
          | [] => .error .ErrUnexpectedEOF
          | c1 :: rest1 =>
            if c1 = '}' then .ok (.object [], rest1)
            else
              match scanMembers fuel (depth + 1) (c1 :: rest1) with
              | .error e => .error e
              | .ok (ms, r) => .ok (.object ms, r)
      else if c = '[' then
        if maxNestingDepth < depth + 1 then .error .SyntaxError
        else
          match skipSpace rest with
          | [] => .error .ErrUnexpectedEOF
          | c1 :: rest1 =>
            if c1 = ']' then .ok (.array [], rest1)
            else
              match scanElems fuel (depth + 1) (c1 :: rest1) with
              | .error e => .error e
              | .ok (xs, r) => .ok (.array xs, r)
      else scanScalar c rest
/-- Reads the members of an object from the first key to the closing brace. -/
def scanMembers : Nat → Nat → List Char → Except GoError (List (String × JSON) × List Char)
  | 0, _, _ => .error .scanOutOfFuel
  | fuel + 1, depth, cs =>
    match skipSpace cs with
    | [] => .error .ErrUnexpectedEOF
    | c :: rest =>
      if c ≠ '"' then .error .SyntaxError
      else
        match scanQuoted rest with
        | .error e => .error e
        | .ok (key, r1) =>
          match skipSpace r1 with
          | [] => .error .ErrUnexpectedEOF
          | c1 :: r2 =>
            if c1 ≠ ':' then .error .SyntaxError
            else
              match scanValue fuel depth r2 with
              | .error e => .error e
              | .ok (v, r3) =>
                match skipSpace r3 with
                | [] => .error .ErrUnexpectedEOF
                | c3 :: r4 =>
                  if c3 = '}' then .ok ([(key, v)], r4)
                  else if c3 = ',' then
                    match scanMembers fuel depth r4 with
                    | .error e => .error e
                    | .ok (ms, r) => .ok ((key, v) :: ms, r)
                  else .error .SyntaxError
/-- Reads the elements of an array from the first element to the closing bracket. -/
def scanElems : Nat → Nat → List Char → Except GoError (List JSON × List Char)
  | 0, _, _ => .error .scanOutOfFuel
  | fuel + 1, depth, cs =>
    match scanValue fuel depth cs with
    | .error e => .error e
    | .ok (v, r1) =>
      match skipSpace r1 with
      | [] => .error .ErrUnexpectedEOF
      | c :: r2 =>
        if c = ']' then .ok ([v], r2)
        else if c = ',' then
          match scanElems fuel depth r2 with
          | .error e => .error e
          | .ok (xs, r) => .ok (v :: xs, r)
        else .error .SyntaxError
end

/-- Go `(*Decoder).readValue`: the first JSON value of the stream and what follows it. -/
def readValue (content : String) : Except GoError (JSON × List Char) :=
  match skipSpace content.data with
  | [] => .error .EOF
  | _ :: _ => scanValue (2 * content.data.length + 2) 0 content.data

/-! ## Go runtime: `encoding/json`, storing a value into a struct

What `(*decodeState).object` does for a destination of kind struct.  The fields it
stores into are those `typeFields` keeps: of the fields that share one JSON name, the
only tagged one, or the only one, and none when that does not single one out.  A key
is matched to a field by its exact name first and, failing that, to the first field
whose name is equal to the key under Unicode simple case folding.  A key that matches
no field is skipped; a field that no key matches keeps the value it had.  The value
of a matched key is stored by the decoder of the field's own type, which is a
parameter here (`Field.store`): it may store, record an error with `saveError` and let
decoding go on, or return an error that stops decoding.  The earliest recorded error
is returned once the whole object has been stored.

Structs that embed other structs and types with an `UnmarshalJSON` or `UnmarshalText`
method of their own are not decoded by this routine and are covered only by
`JSONTarget`. -/

/-- How storing one JSON value into a destination ends. -/
inductive Outcome where
  /-- The value was stored, or skipped without error. -/
  | done
  /-- An error was recorded by `saveError`; decoding goes on. -/
  | saved (err : GoError)
  /-- An error was returned; decoding stops. -/
  | failed (err : GoError)
  deriving DecidableEq, Repr

/-- A field of the destination struct that JSON can reach (unexported fields and fields
tagged `-` are not listed): the name it has in JSON, whether the name comes from a `json`
tag, the zero value of its type, and the decoder of its type, which maps a JSON value
and the current value of the field to the new value of the field and the outcome. -/
structure Field (V : Type) where
  Name : String
  Tagged : Bool
  zero : V
  store : JSON → V → V × Outcome

/-- A struct value: the value of each field, by name. -/
abbrev Struct (V : Type) := List (String × V)

/-- The value of a field. -/
def Struct.get {V : Type} (s : Struct V) (fieldName : String) : Option V :=
  s.lookup fieldName

/-- Assignment to a field. -/
def Struct.set {V : Type} (s : Struct V) (fieldName : String) (v : V) : Struct V :=
  s.map (fun e => if e.1 = fieldName then (e.1, v) else e)

/-- Go `dominantField` for the fields of one struct: a tagged field stands when it is
the only tagged field of its name, an untagged one when it is the only field of its
name. -/
def dominant {V : Type} (schema : List (Field V)) (f : Field V) : Bool :=
  if f.Tagged then
    decide (schema.countP (fun g => decide (g.Name = f.Name) && g.Tagged) = 1)
  else
    decide (schema.countP (fun g => decide (g.Name = f.Name)) = 1)

/-- Go `typeFields`: the fields JSON is decoded into, in the order of the struct. -/
def typeFields {V : Type} (schema : List (Field V)) : List (Field V) :=
  schema.filter (dominant schema)

/-- The zero value of the struct (Go `var config T`). -/
def zeroStruct {V : Type} (schema : List (Field V)) : Struct V :=
  (typeFields schema).map (fun f => (f.Name, f.zero))

/-- Go `foldName`: ASCII letters go to upper case, any other rune `r` goes to
`foldRune r`, the smallest rune that Unicode simple case folding makes equal to `r`.
The Unicode table `foldRune` reads is not part of this development, so that `foldRune`
is a parameter. -/
def foldName (foldRune : Char → Char) (s : String) : List Char :=
  s.data.map (fun c => if c.toNat < 128 then c.toUpper else foldRune c)

/-- The field of the struct an object key is stored into: among the fields `typeFields`
keeps, the field of that exact name, else the first field whose folded name is the
folded key. -/
def findField {V : Type} (foldRune : Char → Char) (schema : List (Field V)) (key : String) :
    Option (Field V) :=
  match (typeFields schema).find? (fun f => f.Name = key) with
  | some f => some f
  | none =>
    (typeFields schema).find? (fun f => foldName foldRune f.Name = foldName foldRune key)

/-- The `Value` text of an `UnmarshalTypeError` for a JSON value. -/
def JSON.describe : JSON → String
  | .null => "null"
  | .bool _ => "bool"
  | .number _ => "number"
  | .string _ => "string"
  | .array _ => "array"
  | .object _ => "object"

/-- Go `(*decodeState).saveError`: keeps the earliest error. -/
def saveError (saved : Option GoError) (e : GoError) : Option GoError :=
  match saved with
  | none => some e
  | some first => some first

/-- The loop of Go `(*decodeState).object` for a struct: stores the members of the
object, in their order, into `cur`; `saved` is the error recorded so far. -/
def storeMembers {V : Type} (foldRune : Char → Char) (schema : List (Field V)) :
    List (String × JSON) → Struct V → Option GoError → Struct V × Option GoError
  | [], cur, saved => (cur, saved)
  | m :: ms, cur, saved =>
    match findField foldRune schema m.1 with
    | none => storeMembers foldRune schema ms cur saved
    | some f =>
      match f.store m.2 ((cur.get f.Name).getD f.zero) with
      | (v, .done) => storeMembers foldRune schema ms (cur.set f.Name v) saved
      | (v, .saved err) =>
        storeMembers foldRune schema ms (cur.set f.Name v) (saveError saved err)
      | (v, .failed err) => (cur.set f.Name v, some err)

/-- Go `(*decodeState).value` for a struct destination. -/
def unmarshalStruct {V : Type} (foldRune : Char → Char) (schema : List (Field V)) (v : JSON)
    (cur : Struct V) : Struct V × Option GoError :=
  match v with
  | .null => (cur, none)
  | .object ms => storeMembers foldRune schema ms cur none
  | other => (cur, some (.UnmarshalTypeError other.describe ""))

/-- The destination `T` = struct with the given fields. -/
def structTarget {V : Type} (foldRune : Char → Char) (schema : List (Field V)) :
    JSONTarget (Struct V) where
  zero := zeroStruct schema
  Decode := fun content cur =>
    match readValue content with
    | .error e => (cur, some e)
    | .ok (v, _) => unmarshalStruct foldRune schema v cur

/-! ## Go runtime: `encoding/json`, fields of kind int, string and bool -/

/-- Kind of a field: Go `int` (of 64 bits), `string` or `bool`. -/
inductive Kind where
  | int
  | string
  | bool
  deriving DecidableEq, Repr

/-- A Go value of one of these kinds. -/
inductive GoVal where
  | int (n : Int)
  | string (s : String)
  | bool (b : Bool)
  deriving DecidableEq, Repr

/-- The zero value of a kind. -/
def Kind.zero : Kind → GoVal
  | .int => .int 0
  | .string => .string ""
  | .bool => .bool false

/-- Go `strconv.ParseInt(lit, 10, 64)` on the text of a JSON number. -/
def parseInt64 (lit : String) : Option Int :=
  let neg := lit.data.head? = some '-'
  let ds := if neg then lit.data.drop 1 else lit.data
  if ds ≠ [] ∧ ds.all Char.isDigit = true then
    let n : Int := Int.ofNat (ds.foldl (fun a c => a * 10 + (c.toNat - '0'.toNat)) 0)
    let v : Int := if neg then -n else n
    if -(2 : Int) ^ 63 ≤ v ∧ v < (2 : Int) ^ 63 then some v else none
  else none

/-- What storing a JSON value into a field of a given kind does: a new value,
nothing (`null`), or a type error with the description of the value. -/
def storeField (k : Kind) (v : JSON) : Except String (Option GoVal) :=
  match v, k with
  | .null, _ => .ok none
  | .bool b, .bool => .ok (some (.bool b))
  | .string str, .string => .ok (some (.string str))
  | .number lit, .int =>
    match parseInt64 lit with
    | some n => .ok (some (.int n))
    | none => .error ("number " ++ lit)
  | other, _ => .error other.describe

/-- An untagged field of kind int, string or bool; a value that does not fit is skipped
and reported by an `UnmarshalTypeError`. -/
def basicField (fieldName : String) (k : Kind) : Field GoVal where
  Name := fieldName
  Tagged := false
  zero := k.zero
  store := fun j cur =>
    match storeField k j with
    | .ok none => (cur, .done)
    | .ok (some v) => (v, .done)
    | .error desc => (cur, .saved (.UnmarshalTypeError desc fieldName))

/-! ## `LoadConfig` (config.go 35-49) -/

/-- Go `LoadConfig[T]`.  The result pair is Go's `(*T, error)`, `none` standing for `nil`. -/
def LoadConfig {T : Type} (d : JSONTarget T) (w : World) (filePath : String) :
    (Option T × Option GoError) × World :=
  match osOpen w filePath with
  | (.error err, w1) => ((none, some err), w1)
  | (.ok file, w1) =>
    -- defer file.Close(): runs on each return below
    let config := d.zero
    match decoderDecode d file config w1 with
    | ((_, some err), w2) => ((none, some err), file.Close w2)
    | ((config, none), w2) => ((some config, none), file.Close w2)

/-! ## Example states -/

/-- The flag set of a process after `flag.String` has defined `-config` on it and before
`flag.Parse` has run. -/
def definedCommandLine (prog : String) : FlagSet :=
  { name := prog, parsed := false, actual := [],
    formal := [{ Name := CONFIG_FLAG, Usage := CONFIG_HELP, Value := "", DefValue := "" }],
    args := [] }

/-- The flag set of a process after a call that parsed the given value of `-config`. -/
def parsedCommandLine (prog value : String) (actual : List String) : FlagSet :=
  { name := prog, parsed := true, actual := actual,
    formal := [{ Name := CONFIG_FLAG, Usage := CONFIG_HELP, Value := value, DefValue := "" }],
    args := [] }

/-- A filesystem holding one file, `/etc/app.json`, and no event yet. -/
def oneFile (content : String) : World :=
  { files := fun path =>
      if path = "/etc/app.json" then .ok content
      else .error (.PathError "open" path "no such file or directory"),
    trace := [] }

/-- Go `foldRune` on the two runes outside ASCII that fold to an ASCII letter, the
long s (U+017F) and the Kelvin sign (U+212A); other runes are left as they are. The
examples below hold no other rune outside ASCII, and those on `serverSchema` hold for
every folding (`serverSchema_examples_any_folding`). -/
def foldRuneSample (c : Char) : Char :=
  if c = Char.ofNat 0x17F then 'S' else if c = Char.ofNat 0x212A then 'K' else c

/-- The struct whose fields, all untagged, have the given names and kinds. -/
def basicSchema (fields : List (String × Kind)) : List (Field GoVal) :=
  fields.map (fun p => basicField p.1 p.2)

/-- A destination struct with a string field and an int field. -/
def serverSchema : List (Field GoVal) :=
  [basicField "Name" .string, basicField "Port" .int]

/-- A destination struct with the fields `Host string`, `Port int` and `Key string`. -/
def hostSchema : List (Field GoVal) :=
  [basicField "Host" .string, basicField "Port" .int, basicField "Key" .string]

/-! ## Shape of a document against a struct -/

/-- The decoder of the field takes the value: it stores it without error, whatever the
field holds. -/
def Field.accepts {V : Type} (f : Field V) (j : JSON) : Prop :=
  ∀ cur, (f.store j cur).2 = .done

/-- The decoder of the field does not take the value: it reports an error, whatever the
field holds. -/
def Field.rejects {V : Type} (f : Field V) (j : JSON) : Prop :=
  ∀ cur, (f.store j cur).2 ≠ .done

/-- The object matches the struct field for field: each field the decoder stores into is
the field of some member, and each member matched to a field has a value the field
takes. -/
def matchesShape {V : Type} (foldRune : Char → Char) (schema : List (Field V))
    (ms : List (String × JSON)) : Prop :=
  (∀ f ∈ typeFields schema, ∃ m ∈ ms, findField foldRune schema m.1 = some f) ∧
    (∀ m ∈ ms, ∀ f, findField foldRune schema m.1 = some f → f.accepts m.2)

/-- Is the JSON value of the type of the kind? For kind `int` a number must be the text
of a 64-bit integer. -/
def rightType (k : Kind) (v : JSON) : Bool :=
  match v, k with
  | .bool _, .bool => true
  | .string _, .string => true
  | .number lit, .int => (parseInt64 lit).isSome
  | _, _ => false

/-- The object matches, field for field, the struct with fields of the given names and
kinds: each field the decoder stores into is the field of some member, and each member
matched to a field has a value of the type of the field. -/
def matchesKinds (foldRune : Char → Char) (fields : List (String × Kind))
    (ms : List (String × JSON)) : Prop :=
  (∀ f ∈ typeFields (basicSchema fields), ∃ m ∈ ms,
      findField foldRune (basicSchema fields) m.1 = some f) ∧
    (∀ m ∈ ms, ∀ n k,
      findField foldRune (basicSchema fields) m.1 = some (basicField n k) →
      rightType k m.2 = true)

/-- Is the JSON value, which is not `null`, of a type the kind does not take? For kind
`int` a number must be the text of a 64-bit integer. -/
def wrongType (k : Kind) (v : JSON) : Bool :=
  match v, k with
  | .null, _ => false
  | .bool _, .bool => false
  | .string _, .string => false
  | .number lit, .int => (parseInt64 lit).isNone
  | _, _ => true

/-! ## Lemmas on the flag package -/

theorem flagString_environ {p p1 : Proc} {n v u ptr : String}
    (h : flagString p n v u = .ok (ptr, p1)) : p1.environ = p.environ ∧ p1.Args = p.Args := by
  unfold flagString at h
  split at h
  · cases h
  · cases h; exact ⟨rfl, rfl⟩

theorem flagParse_environ {p p2 : Proc} (h : flagParse p = .ok p2) :
    p2.environ = p.environ ∧ p2.Args = p.Args := by
  unfold flagParse at h
  split at h
  · cases h
  · cases h; exact ⟨rfl, rfl⟩

theorem Getenv_congr {p q : Proc} (h : q.environ = p.environ) (key : String) :
    Getenv q key = Getenv p key := by
  unfold Getenv; rw [h]

theorem find_map_isSome (l : List Flag) (g : Flag → Flag) (hg : ∀ fl, (g fl).Name = fl.Name)
    (m : String) :
    ((l.map g).find? (fun fl => fl.Name = m)).isSome =
      (l.find? (fun fl => fl.Name = m)).isSome := by
  induction l with
  | nil => rfl
  | cons a l ih =>
    simp only [List.map_cons, List.find?_cons, hg]
    cases decide (a.Name = m)
    · exact ih
    · rfl

theorem FlagSet.find_setValue (f : FlagSet) (n v m : String) :
    ((f.setValue n v).find m).isSome = (f.find m).isSome := by
  unfold FlagSet.find FlagSet.setValue
  apply find_map_isSome
  intro fl
  by_cases hn : fl.Name = n <;> simp [hn]

/-- What the second half of a parser step keeps. -/
theorem FlagSet.parseFlag_spec (f f1 : FlagSet) (s : String) (rest : List String)
    (name : List Char) (seen : Bool) (err : Option FlagError)
    (h : f.parseFlag s rest name = (seen, err, f1)) (m : String) :
    (f1.find m).isSome = (f.find m).isSome ∧ f1.name = f.name ∧
      (seen = true → f1.args.length ≤ rest.length) := by
  unfold FlagSet.parseFlag at h
  split at h
  · cases h; simp
  · simp only at h
    generalize String.mk (List.takeWhile (fun c => decide (c ≠ '=')) name) = nm at h
    generalize String.mk (List.drop 1 (List.dropWhile (fun c => decide (c ≠ '=')) name)) = value at h
    cases hfind : FlagSet.find { f with args := rest } nm with
    | none =>
      rw [hfind] at h
      simp only at h
      split at h <;> (cases h; simp [FlagSet.find])
    | some fl =>
      rw [hfind] at h
      simp only at h
      split at h
      · cases h
        refine ⟨?_, rfl, ?_⟩
        · rw [FlagSet.find_setValue]; rfl
        · intro _; simp [FlagSet.setValue]
      · cases rest with
        | nil => cases h; simp [FlagSet.find]
        | cons v rest1 =>
          cases h
          refine ⟨?_, rfl, ?_⟩
          · rw [FlagSet.find_setValue]; rfl
          · intro _; simp [FlagSet.setValue]

/-- What one step of the parser keeps: the defined flags and the name of the set; a
step that saw a flag shortens the argument list. -/
theorem FlagSet.parseOne_spec (f f1 : FlagSet) (seen : Bool) (err : Option FlagError)
    (h : f.parseOne = (seen, err, f1)) (m : String) :
    (f1.find m).isSome = (f.find m).isSome ∧ f1.name = f.name ∧
      (seen = true → f1.args.length < f.args.length) := by
  unfold FlagSet.parseOne at h
  split at h
  · cases h; simp
  · rename_i s rest hargs
    have key : ∀ name, f.parseFlag s rest name = (seen, err, f1) →
        (f1.find m).isSome = (f.find m).isSome ∧ f1.name = f.name ∧
          (seen = true → f1.args.length < f.args.length) := by
      intro name hname
      have h1 := FlagSet.parseFlag_spec f f1 s rest name seen err hname m
      refine ⟨h1.1, h1.2.1, fun hs => ?_⟩
      have := h1.2.2 hs
      rw [hargs]; simp; omega
    split at h
    · cases h; simp
    · split at h
      · split at h
        · cases h; simp [FlagSet.find]
        · exact key _ h
      · exact key _ h

theorem FlagSet.parseLoop_spec (fuel : Nat) (f f2 : FlagSet)
    (h : FlagSet.parseLoop fuel f = .ok f2) (m : String) :
    (f2.find m).isSome = (f.find m).isSome ∧ f2.name = f.name := by
  induction fuel generalizing f with
  | zero => simp [FlagSet.parseLoop] at h
  | succ n ih =>
    unfold FlagSet.parseLoop at h
    split at h
    · rename_i e f1 hone
      have h1 := FlagSet.parseOne_spec f f1 true e hone m
      have h2 := ih f1 h
      exact ⟨h2.1.trans h1.1, h2.2.trans h1.2.1⟩
    · rename_i f1 hone
      cases h
      have h1 := FlagSet.parseOne_spec f f2 false none hone m
      exact ⟨h1.1, h1.2.1⟩
    · cases h
    · cases h

/-- The loop of `Parse` ends within its bound: with more fuel than arguments left, the
bound is never the reason of the result. -/
theorem FlagSet.parseLoop_terminates (fuel : Nat) (f : FlagSet) (hfuel : f.args.length < fuel) :
    FlagSet.parseLoop fuel f ≠ .error .outOfFuel := by
  induction fuel generalizing f with
  | zero => omega
  | succ n ih =>
    unfold FlagSet.parseLoop
    split
    · rename_i e f1 hone
      have h1 := (FlagSet.parseOne_spec f f1 true e hone "").2.2 rfl
      exact ih f1 (by omega)
    · simp
    · simp
    · simp

/-- Go `(*FlagSet).Parse` always ends: it returns or it exits the process. -/
theorem FlagSet.Parse_terminates (f : FlagSet) (arguments : List String) :
    f.Parse arguments ≠ .error .outOfFuel := by
  unfold FlagSet.Parse
  exact FlagSet.parseLoop_terminates _ _ (by simp)

/-- A call of `flag.String` that returns leaves the flag defined. -/
theorem flagString_defines {p p1 : Proc} {n v u ptr : String}
    (h : flagString p n v u = .ok (ptr, p1)) :
    ptr = n ∧ (p1.CommandLine.find n).isSome = true := by
  unfold flagString at h
  cases hd : p.CommandLine.defString n v u with
  | error a => rw [hd] at h; cases h
  | ok r =>
    obtain ⟨ptr1, f1⟩ := r
    rw [hd] at h
    cases h
    unfold FlagSet.defString at hd
    cases hv : p.CommandLine.Var v n u with
    | error a => rw [hv] at hd; cases hd
    | ok f2 =>
      rw [hv] at hd
      cases hd
      unfold FlagSet.Var at hv
      split at hv
      · cases hv
      · split at hv
        · cases hv
        · split at hv
          · cases hv
          · cases hv
            simp [FlagSet.find]

/-- A call of `flag.Parse` that returns keeps the flags that were defined. -/
theorem flagParse_keeps {p p2 : Proc} (h : flagParse p = .ok p2) (m : String) :
    (p2.CommandLine.find m).isSome = (p.CommandLine.find m).isSome ∧
      p2.CommandLine.name = p.CommandLine.name := by
  unfold flagParse at h
  split at h
  · cases h
  · rename_i f1 hp
    cases h
    unfold FlagSet.Parse at hp
    have := FlagSet.parseLoop_spec _ _ _ hp m
    simpa [FlagSet.find] using this

/-- A call of `GetConfigFilePath` that returns leaves the flag `config` defined on the
process-wide flag set. -/
theorem GetConfigFilePath_defines_flag {p p2 : Proc} {s : String}
    (h : GetConfigFilePath p = .ok (s, p2)) :
    (p2.CommandLine.find CONFIG_FLAG).isSome = true := by
  unfold GetConfigFilePath at h
  split at h
  · cases h
  · rename_i ptr p1 hdef
    split at h
    · cases h
    · rename_i q hparse
      have hq : (q.CommandLine.find CONFIG_FLAG).isSome = true := by
        rw [(flagParse_keeps hparse CONFIG_FLAG).1]
        exact (flagString_defines hdef).2
      split at h
      · cases h; exact hq
      · simp only at h
        split at h <;> (cases h; exact hq)

/-- On a process that has not defined the flag yet and is started as `prog -config f`,
`flag.String` and `flag.Parse` return and leave `f` in the flag, for every `f`. -/
theorem flagParse_config_arg (prog f : String) (env : List (String × String)) :
    flagString (freshProc prog ["-config", f] env) CONFIG_FLAG "" CONFIG_HELP =
        .ok ("config",
          { Args := ["-config", f], environ := env,
            CommandLine := definedCommandLine prog }) ∧
      flagParse
          { Args := ["-config", f], environ := env,
            CommandLine := definedCommandLine prog } =
        .ok { Args := ["-config", f], environ := env,
              CommandLine := parsedCommandLine prog f ["config"] } ∧
      (parsedCommandLine prog f ["config"]).deref "config" = f := by
  have hd : "-config".data = ['-', 'c', 'o', 'n', 'f', 'i', 'g'] := rfl
  have hc : CONFIG_FLAG.data = ['c', 'o', 'n', 'f', 'i', 'g'] := rfl
  have hn : (String.mk ['c', 'o', 'n', 'f', 'i', 'g']) = "config" := rfl
  refine ⟨?_, ?_, ?_⟩
  · simp [flagString, FlagSet.defString, FlagSet.Var, freshProc, hc, FlagSet.find, definedCommandLine, CONFIG_FLAG]
  · simp [flagParse, FlagSet.Parse, FlagSet.parseLoop, FlagSet.parseOne, FlagSet.parseFlag,
      FlagSet.setValue, FlagSet.find, hd, hn, parsedCommandLine, definedCommandLine, CONFIG_FLAG]
  · simp [parsedCommandLine, FlagSet.deref, FlagSet.find, CONFIG_FLAG]

/-- On a process that has not defined the flag yet and is started as `prog --config=f`,
`flag.String` and `flag.Parse` return and leave `f` in the flag, for every `f`. -/
theorem flagParse_config_eq (prog f : String) (env : List (String × String)) :
    flagString (freshProc prog ["--config=" ++ f] env) CONFIG_FLAG "" CONFIG_HELP =
        .ok ("config",
          { Args := ["--config=" ++ f], environ := env,
            CommandLine := definedCommandLine prog }) ∧
      flagParse
          { Args := ["--config=" ++ f], environ := env,
            CommandLine := definedCommandLine prog } =
        .ok { Args := ["--config=" ++ f], environ := env,
              CommandLine := parsedCommandLine prog f ["config"] } := by
  have hd : ("--config=" ++ f).data =
      '-' :: '-' :: 'c' :: 'o' :: 'n' :: 'f' :: 'i' :: 'g' :: '=' :: f.data := by
    rw [String.data_append]; rfl
  have hc : CONFIG_FLAG.data = ['c', 'o', 'n', 'f', 'i', 'g'] := rfl
  have hn : (String.mk ['c', 'o', 'n', 'f', 'i', 'g']) = "config" := rfl
  refine ⟨?_, ?_⟩
  · simp [flagString, FlagSet.defString, FlagSet.Var, freshProc, hc, FlagSet.find,
      definedCommandLine, CONFIG_FLAG]
  · have hlen : ¬ (f.length + 1 + 1 + 1 + 1 + 1 + 1 + 1 + 1 + 1 < 2) := by omega
    have h1 : FlagSet.parseOne
        { name := prog, parsed := true, actual := [],
          formal := [{ Name := "config", Usage := CONFIG_HELP, Value := "", DefValue := "" }],
          args := ["--config=" ++ f] } =
        (true, none, parsedCommandLine prog f ["config"]) := by
      simp [FlagSet.parseOne, FlagSet.parseFlag, FlagSet.setValue, FlagSet.find, hd, hn,
        parsedCommandLine, CONFIG_FLAG, List.takeWhile, List.dropWhile, hlen]
    have h2 : FlagSet.parseOne (parsedCommandLine prog f ["config"]) =
        (false, none, parsedCommandLine prog f ["config"]) := by
      simp [FlagSet.parseOne, parsedCommandLine]
    simp [flagParse, FlagSet.Parse, FlagSet.parseLoop, definedCommandLine, CONFIG_FLAG, h1, h2]

/-- On a process that has not defined the flag yet and is started without arguments,
`flag.String` and `flag.Parse` return and leave the flag empty. -/
theorem flagParse_no_args (prog : String) (env : List (String × String)) :
    flagString (freshProc prog [] env) CONFIG_FLAG "" CONFIG_HELP =
        .ok ("config",
          { Args := [], environ := env, CommandLine := definedCommandLine prog }) ∧
      flagParse { Args := [], environ := env, CommandLine := definedCommandLine prog } =
        .ok { Args := [], environ := env, CommandLine := parsedCommandLine prog "" [] } := by
  have hc : CONFIG_FLAG.data = ['c', 'o', 'n', 'f', 'i', 'g'] := rfl
  refine ⟨?_, ?_⟩
  · simp [flagString, FlagSet.defString, FlagSet.Var, freshProc, hc, FlagSet.find,
      definedCommandLine, CONFIG_FLAG]
  · simp [flagParse, FlagSet.Parse, FlagSet.parseLoop, FlagSet.parseOne,
      parsedCommandLine, definedCommandLine]

/-- What `GetConfigFilePath` returns once `flag.String` and `flag.Parse` have returned. -/
theorem GetConfigFilePath_of_parse {p p1 p2 : Proc} {ptr : String}
    (hdef : flagString p CONFIG_FLAG "" CONFIG_HELP = .ok (ptr, p1))
    (hparse : flagParse p1 = .ok p2) :
    GetConfigFilePath p =
      .ok (if p2.CommandLine.deref ptr ≠ "" then p2.CommandLine.deref ptr
           else if Getenv p ENV_VAR ≠ "" then Getenv p ENV_VAR else DEFAULT_FILE, p2) := by
  have h2 : Getenv p2 ENV_VAR = Getenv p ENV_VAR :=
    Getenv_congr ((flagParse_environ hparse).1.trans (flagString_environ hdef).1) _
  simp only [GetConfigFilePath, hdef, hparse, h2]
  split
  · rfl
  · split <;> rfl

/-- First call of a process started as `prog --config=f`, for every `f` and every
environment: the flag when `f` is not empty, else `CONFIG_FILE`, else the default. -/
theorem GetConfigFilePath_config_eq (prog f : String) (env : List (String × String)) :
    GetConfigFilePath (freshProc prog ["--config=" ++ f] env) =
      .ok (if f ≠ "" then f
           else if (env.lookup ENV_VAR).getD "" ≠ "" then (env.lookup ENV_VAR).getD ""
           else DEFAULT_FILE,
           { Args := ["--config=" ++ f], environ := env,
             CommandLine := parsedCommandLine prog f ["config"] }) := by
  obtain ⟨h1, h2⟩ := flagParse_config_eq prog f env
  rw [GetConfigFilePath_of_parse h1 h2]
  have h3 : (parsedCommandLine prog f ["config"]).deref "config" = f := by
    simp [parsedCommandLine, FlagSet.deref, FlagSet.find, CONFIG_FLAG]
  simp only [h3]
  rfl

/-- First call of a process started as `prog -config f`. -/
theorem GetConfigFilePath_config_arg (prog f : String) (env : List (String × String)) :
    GetConfigFilePath (freshProc prog ["-config", f] env) =
      .ok (if f ≠ "" then f
           else if (env.lookup ENV_VAR).getD "" ≠ "" then (env.lookup ENV_VAR).getD ""
           else DEFAULT_FILE,
           { Args := ["-config", f], environ := env,
             CommandLine := parsedCommandLine prog f ["config"] }) := by
  obtain ⟨h1, h2, h3⟩ := flagParse_config_arg prog f env
  rw [GetConfigFilePath_of_parse h1 h2]
  simp only [h3]
  rfl

/-- First call of a process started without arguments: `CONFIG_FILE`, else the default. -/
theorem GetConfigFilePath_no_args (prog : String) (env : List (String × String)) :
    GetConfigFilePath (freshProc prog [] env) =
      .ok (if (env.lookup ENV_VAR).getD "" ≠ "" then (env.lookup ENV_VAR).getD ""
           else DEFAULT_FILE,
           { Args := [], environ := env, CommandLine := parsedCommandLine prog "" [] }) := by
  obtain ⟨h1, h2⟩ := flagParse_no_args prog env
  rw [GetConfigFilePath_of_parse h1 h2]
  have h3 : (parsedCommandLine prog "" []).deref "config" = "" := by
    simp [parsedCommandLine, FlagSet.deref, FlagSet.find, CONFIG_FLAG]
  simp only [h3]
  rfl

/-- A command line `flag.Parse` rejects ends the process: with a flag that is not
defined, `GetConfigFilePath` exits with status 2, and with `-h` it exits with status 0. -/
theorem GetConfigFilePath_exits_on_bad_command_line :
    GetConfigFilePath (freshProc "app" ["-verbose"] []) = .error (.exit 2) ∧
      GetConfigFilePath (freshProc "app" ["-config"] []) = .error (.exit 2) ∧
      GetConfigFilePath (freshProc "app" ["-h"] []) = .error (.exit 0) := by
  decide

/-! ## Path resolution: flag, then environment, then default -/

/-- C1. Flag wins: when the `-config` flag is defined and the command line parses, leaving
the flag with a non-empty value `f`, `GetConfigFilePath` returns exactly `f`; the
environment of the process is arbitrary. -/
theorem GetConfigFilePath_flag_wins (p p1 p2 : Proc) (ptr f : String)
    (hdef : flagString p CONFIG_FLAG "" CONFIG_HELP = .ok (ptr, p1))
    (hparse : flagParse p1 = .ok p2)
    (hflag : p2.CommandLine.deref ptr = f)
    (hf : f ≠ "") :
    GetConfigFilePath p = .ok (f, p2) := by
  subst hflag
  simp only [GetConfigFilePath, hdef, hparse]
  rw [if_pos hf]

/-- C1 at `--config=/tmp/a.json` with `CONFIG_FILE=/tmp/b.json`: the result is `/tmp/a.json`. -/
theorem GetConfigFilePath_flag_wins_witness :
    GetConfigFilePath
        (freshProc "app" ["--config=/tmp/a.json"] [("CONFIG_FILE", "/tmp/b.json")]) =
      .ok ("/tmp/a.json",
        { Args := ["--config=/tmp/a.json"], environ := [("CONFIG_FILE", "/tmp/b.json")],
          CommandLine := parsedCommandLine "app" "/tmp/a.json" ["config"] }) :=
  GetConfigFilePath_flag_wins
    (freshProc "app" ["--config=/tmp/a.json"] [("CONFIG_FILE", "/tmp/b.json")])
    { Args := ["--config=/tmp/a.json"], environ := [("CONFIG_FILE", "/tmp/b.json")],
      CommandLine := definedCommandLine "app" }
    { Args := ["--config=/tmp/a.json"], environ := [("CONFIG_FILE", "/tmp/b.json")],
      CommandLine := parsedCommandLine "app" "/tmp/a.json" ["config"] }
    "config" "/tmp/a.json" (by decide) (by decide) (by decide) (by decide)

/-- C2. Environment second: when the command line parses and leaves the `-config` flag
empty (absent, or supplied as the empty string) and `CONFIG_FILE` has the non-empty
value `e`, `GetConfigFilePath` returns exactly `e`. -/
theorem GetConfigFilePath_env_second (p p1 p2 : Proc) (ptr e : String)
    (hdef : flagString p CONFIG_FLAG "" CONFIG_HELP = .ok (ptr, p1))
    (hparse : flagParse p1 = .ok p2)
    (hflag : p2.CommandLine.deref ptr = "")
    (henv : Getenv p ENV_VAR = e)
    (he : e ≠ "") :
    GetConfigFilePath p = .ok (e, p2) := by
  have h2 : Getenv p2 ENV_VAR = e := by
    rw [Getenv_congr ((flagParse_environ hparse).1.trans (flagString_environ hdef).1)]
    exact henv
  simp only [GetConfigFilePath, hdef, hparse, hflag, h2]
  simp [he]

/-- C2 with no flag and `CONFIG_FILE=/tmp/b.json`: the result is `/tmp/b.json`. -/
theorem GetConfigFilePath_env_second_witness :
    GetConfigFilePath (freshProc "app" [] [("CONFIG_FILE", "/tmp/b.json")]) =
      .ok ("/tmp/b.json",
        { Args := [], environ := [("CONFIG_FILE", "/tmp/b.json")],
          CommandLine := parsedCommandLine "app" "" [] }) :=
  GetConfigFilePath_env_second
    (freshProc "app" [] [("CONFIG_FILE", "/tmp/b.json")])
    { Args := [], environ := [("CONFIG_FILE", "/tmp/b.json")],
      CommandLine := definedCommandLine "app" }
    { Args := [], environ := [("CONFIG_FILE", "/tmp/b.json")],
      CommandLine := parsedCommandLine "app" "" [] }
    "config" "/tmp/b.json" (by decide) (by decide) (by decide) (by decide) (by decide)

/-- C3. Default last: when the command line parses and leaves the `-config` flag empty and
`CONFIG_FILE` is unset or set to the empty string, `GetConfigFilePath` returns the
constant `./config/config.json`. -/
theorem GetConfigFilePath_default_last (p p1 p2 : Proc) (ptr : String)
    (hdef : flagString p CONFIG_FLAG "" CONFIG_HELP = .ok (ptr, p1))
    (hparse : flagParse p1 = .ok p2)
    (hflag : p2.CommandLine.deref ptr = "")
    (henv : p.environ.lookup ENV_VAR = none ∨ p.environ.lookup ENV_VAR = some "") :
    GetConfigFilePath p = .ok ("./config/config.json", p2) := by
  have h1 : Getenv p ENV_VAR = "" := by
    unfold Getenv
    rcases henv with h | h <;> rw [h] <;> rfl
  have h2 : Getenv p2 ENV_VAR = "" := by
    rw [Getenv_congr ((flagParse_environ hparse).1.trans (flagString_environ hdef).1)]
    exact h1
  simp only [GetConfigFilePath, hdef, hparse, hflag, h2]
  simp [DEFAULT_FILE]

/-- C3 with the flag supplied empty and `CONFIG_FILE` set to the empty string. -/
theorem GetConfigFilePath_default_last_witness :
    GetConfigFilePath (freshProc "app" ["-config="] [("CONFIG_FILE", "")]) =
      .ok ("./config/config.json",
        { Args := ["-config="], environ := [("CONFIG_FILE", "")],
          CommandLine := parsedCommandLine "app" "" ["config"] }) :=
  GetConfigFilePath_default_last
    (freshProc "app" ["-config="] [("CONFIG_FILE", "")])
    { Args := ["-config="], environ := [("CONFIG_FILE", "")],
      CommandLine := definedCommandLine "app" }
    { Args := ["-config="], environ := [("CONFIG_FILE", "")],
      CommandLine := parsedCommandLine "app" "" ["config"] }
    "config" (by decide) (by decide) (by decide) (Or.inr (by decide))

/-- C4. Whatever value `f` the parsed command line leaves in the `-config` flag and whatever
value `e` the variable `CONFIG_FILE` has, `GetConfigFilePath` returns a string that is
not empty and is one of `f`, `e` and the default constant. -/
theorem GetConfigFilePath_nonempty_candidate (p p1 p2 : Proc) (ptr f e : String)
    (hdef : flagString p CONFIG_FLAG "" CONFIG_HELP = .ok (ptr, p1))
    (hparse : flagParse p1 = .ok p2)
    (hflag : p2.CommandLine.deref ptr = f)
    (henv : Getenv p ENV_VAR = e) :
    ∃ s, GetConfigFilePath p = .ok (s, p2) ∧ s ≠ "" ∧ (s = f ∨ s = e ∨ s = DEFAULT_FILE) := by
  have h2 : Getenv p2 ENV_VAR = e := by
    rw [Getenv_congr ((flagParse_environ hparse).1.trans (flagString_environ hdef).1)]
    exact henv
  subst hflag
  by_cases hf : p2.CommandLine.deref ptr = ""
  · by_cases he : e = ""
    · refine ⟨DEFAULT_FILE, ?_, by decide, Or.inr (Or.inr rfl)⟩
      simp only [GetConfigFilePath, hdef, hparse, h2]
      simp [hf, he]
    · refine ⟨e, ?_, he, Or.inr (Or.inl rfl)⟩
      simp only [GetConfigFilePath, hdef, hparse, h2]
      simp [hf, he]
  · refine ⟨p2.CommandLine.deref ptr, ?_, hf, Or.inl rfl⟩
    simp only [GetConfigFilePath, hdef, hparse]
    rw [if_pos hf]

/-- C4 with the flag given as two arguments and an empty environment. -/
theorem GetConfigFilePath_nonempty_candidate_witness :
    ∃ s, GetConfigFilePath (freshProc "app" ["-config", "c.json", "rest"] []) =
        .ok (s, { Args := ["-config", "c.json", "rest"], environ := [],
                  CommandLine := { parsedCommandLine "app" "c.json" ["config"] with args := ["rest"] } }) ∧
      s ≠ "" ∧ (s = "c.json" ∨ s = "" ∨ s = DEFAULT_FILE) :=
  GetConfigFilePath_nonempty_candidate
    (freshProc "app" ["-config", "c.json", "rest"] [])
    { Args := ["-config", "c.json", "rest"], environ := [],
      CommandLine := definedCommandLine "app" }
    { Args := ["-config", "c.json", "rest"], environ := [],
      CommandLine := { parsedCommandLine "app" "c.json" ["config"] with args := ["rest"] } }
    "config" "c.json" "" (by decide) (by decide) (by decide) (by decide)

/-! ## Repeated calls -/

/-- C9. After any call of `GetConfigFilePath` that returned, a second call in the same
process does not return a string: `flag.String` finds the flag `config` already defined
on `flag.CommandLine` and panics with "flag redefined: config". -/
theorem GetConfigFilePath_second_call_panics (p p2 : Proc) (s : String)
    (h : GetConfigFilePath p = .ok (s, p2)) :
    GetConfigFilePath p2 =
      .error (.panic (.flagRedefined p2.CommandLine.name CONFIG_FLAG)) := by
  have hdef := GetConfigFilePath_defines_flag h
  cases hfind : p2.CommandLine.find CONFIG_FLAG with
  | none => rw [hfind] at hdef; cases hdef
  | some fl =>
    have hvar : p2.CommandLine.Var "" CONFIG_FLAG CONFIG_HELP =
        .error (.panic (.flagRedefined p2.CommandLine.name CONFIG_FLAG)) := by
      unfold FlagSet.Var
      rw [if_neg (by decide), if_neg (by decide), hfind]
    simp only [GetConfigFilePath, flagString, FlagSet.defString, hvar]

/-- C9 on a process started without arguments and with an empty environment: the first
call returns the default path, the second call panics. -/
theorem GetConfigFilePath_second_call_panics_witness :
    GetConfigFilePath (freshProc "app" [] []) =
        .ok ("./config/config.json",
          { Args := [], environ := [], CommandLine := parsedCommandLine "app" "" [] }) ∧
      GetConfigFilePath
          { Args := [], environ := [], CommandLine := parsedCommandLine "app" "" [] } =
        .error (.panic (.flagRedefined "app" "config")) :=
  ⟨by decide,
   GetConfigFilePath_second_call_panics (freshProc "app" [] [])
     { Args := [], environ := [], CommandLine := parsedCommandLine "app" "" [] }
     "./config/config.json" (by decide)⟩

/-! ## `LoadConfig`: results and handles -/

/-- What `LoadConfig` does when the file opens: one open, one run of the decoder and one
close of the same handle, and a result that follows the decoder. -/
theorem LoadConfig_opened {T : Type} (d : JSONTarget T) (w : World) (filePath content : String)
    (hopen : w.files filePath = .ok content) :
    LoadConfig d w filePath =
      (match d.Decode content d.zero with
        | (_, some err) => (none, some err)
        | (config, none) => (some config, none),
       { w with trace := w.trace ++
          [.opened w.opens filePath, .decoded w.opens, .closed w.opens] }) := by
  unfold LoadConfig osOpen decoderDecode File.Close
  rw [hopen]
  simp only
  rcases hd : d.Decode content d.zero with ⟨v, _ | err⟩ <;> simp

/-- What `LoadConfig` does when the file does not open. -/
theorem LoadConfig_not_opened {T : Type} (d : JSONTarget T) (w : World) (filePath : String)
    (err : GoError) (hopen : w.files filePath = .error err) :
    LoadConfig d w filePath = ((none, some err), w) := by
  unfold LoadConfig osOpen
  rw [hopen]

/-- C5. Open failure: at every path where `os.Open` fails, `LoadConfig` returns no value
and the error of `os.Open` itself; the state of the filesystem is left as it was, so
that the decoder has not run and no handle was acquired. -/
theorem LoadConfig_open_failure {T : Type} (d : JSONTarget T) (w : World) (filePath : String)
    (err : GoError) (hopen : w.files filePath = .error err) :
    (LoadConfig d w filePath).1 = (none, some err) ∧
      (LoadConfig d w filePath).2.trace = w.trace ∧
      (LoadConfig d w filePath).2.decodes = w.decodes := by
  rw [LoadConfig_not_opened d w filePath err hopen]
  exact ⟨rfl, rfl, rfl⟩

/-- C5 at a path that does not exist. -/
theorem LoadConfig_open_failure_witness :
    (LoadConfig (structTarget foldRuneSample serverSchema) (oneFile "\x7b\x7d") "/nope.json").1 =
        (none, some (.PathError "open" "/nope.json" "no such file or directory")) ∧
      (LoadConfig (structTarget foldRuneSample serverSchema) (oneFile "\x7b\x7d") "/nope.json").2.trace = [] ∧
      (LoadConfig (structTarget foldRuneSample serverSchema) (oneFile "\x7b\x7d") "/nope.json").2.decodes = 0 :=
  LoadConfig_open_failure (structTarget foldRuneSample serverSchema) (oneFile "\x7b\x7d") "/nope.json"
    (.PathError "open" "/nope.json" "no such file or directory") (by decide)

/-- C6. No partial results: when the file opens and the decoder reports an error, with
whatever value it left in the destination, `LoadConfig` returns that error and no
value; and every call returns either a value and no error, or an error and no value. -/
theorem LoadConfig_value_or_error {T : Type} (d : JSONTarget T) (w : World)
    (filePath : String) :
    (∀ content v err, w.files filePath = .ok content →
        d.Decode content d.zero = (v, some err) →
        (LoadConfig d w filePath).1 = (none, some err)) ∧
      ((∃ v, (LoadConfig d w filePath).1 = (some v, none)) ∨
        (∃ err, (LoadConfig d w filePath).1 = (none, some err))) := by
  constructor
  · intro content v err hopen hdec
    rw [LoadConfig_opened d w filePath content hopen, hdec]
  · cases hopen : w.files filePath with
    | error err =>
      rw [LoadConfig_not_opened d w filePath err hopen]
      exact Or.inr ⟨err, rfl⟩
    | ok content =>
      rw [LoadConfig_opened d w filePath content hopen]
      rcases hd : d.Decode content d.zero with ⟨v, _ | err⟩
      · exact Or.inl ⟨v, rfl⟩
      · exact Or.inr ⟨err, rfl⟩

/-- C8. Handle release: every call of `LoadConfig` adds as many closes as successful opens.
When the file opens, whatever the decoder then reports, the handle is opened, read by the
decoder and closed once; when it does not open, no handle event happens. -/
theorem LoadConfig_releases_handle {T : Type} (d : JSONTarget T) (w : World)
    (filePath : String) :
    (LoadConfig d w filePath).2.opens + w.closes =
        (LoadConfig d w filePath).2.closes + w.opens ∧
      (∀ content, w.files filePath = .ok content →
        (LoadConfig d w filePath).2.trace =
            w.trace ++ [.opened w.opens filePath, .decoded w.opens, .closed w.opens] ∧
          (LoadConfig d w filePath).2.opens = w.opens + 1 ∧
          (LoadConfig d w filePath).2.closes = w.closes + 1) ∧
      (∀ err, w.files filePath = .error err →
        (LoadConfig d w filePath).2.trace = w.trace ∧
          (LoadConfig d w filePath).2.opens = w.opens ∧
          (LoadConfig d w filePath).2.closes = w.closes) := by
  have hok : ∀ content, w.files filePath = .ok content →
      (LoadConfig d w filePath).2.trace =
          w.trace ++ [.opened w.opens filePath, .decoded w.opens, .closed w.opens] ∧
        (LoadConfig d w filePath).2.opens = w.opens + 1 ∧
        (LoadConfig d w filePath).2.closes = w.closes + 1 := by
    intro content hopen
    rw [LoadConfig_opened d w filePath content hopen]
    refine ⟨rfl, ?_, ?_⟩
    · simp [World.opens, List.countP_append, List.countP_cons, Event.isOpen]
    · simp [World.closes, List.countP_append, List.countP_cons, Event.isClose]
  have herr : ∀ err, w.files filePath = .error err →
      (LoadConfig d w filePath).2.trace = w.trace ∧
        (LoadConfig d w filePath).2.opens = w.opens ∧
        (LoadConfig d w filePath).2.closes = w.closes := by
    intro err hopen
    rw [LoadConfig_not_opened d w filePath err hopen]
    exact ⟨rfl, rfl, rfl⟩
  refine ⟨?_, hok, herr⟩
  cases hopen : w.files filePath with
  | error err =>
    obtain ⟨_, h2, h3⟩ := herr err hopen
    rw [h2, h3]; omega
  | ok content =>
    obtain ⟨_, h2, h3⟩ := hok content hopen
    rw [h2, h3]; omega

/-- C6 on the truncated document of the specification: the result is
`io.ErrUnexpectedEOF` and no value. -/
theorem LoadConfig_value_or_error_witness :
    (LoadConfig (structTarget foldRuneSample serverSchema) (oneFile "\x7b\"a\":") "/etc/app.json").1 =
      (none, some .ErrUnexpectedEOF) :=
  (LoadConfig_value_or_error (structTarget foldRuneSample serverSchema) (oneFile "\x7b\"a\":")
      "/etc/app.json").1
    "\x7b\"a\":" (zeroStruct serverSchema) .ErrUnexpectedEOF (by decide) (by decide)

/-- C8 on a file that decodes, after an earlier load that failed to decode: two opens and
two closes. -/
theorem LoadConfig_releases_handle_witness :
    (LoadConfig (structTarget foldRuneSample serverSchema)
        { oneFile "\x7b\"Port\":80\x7d" with trace := [.opened 0 "/x", .decoded 0, .closed 0] }
        "/etc/app.json").2.trace =
      [.opened 0 "/x", .decoded 0, .closed 0,
       .opened 1 "/etc/app.json", .decoded 1, .closed 1] :=
  ((LoadConfig_releases_handle (structTarget foldRuneSample serverSchema)
      { oneFile "\x7b\"Port\":80\x7d" with trace := [.opened 0 "/x", .decoded 0, .closed 0] }
      "/etc/app.json").2.1 "\x7b\"Port\":80\x7d" (by decide)).1

/-! ## The JSON scanner consumes input and ends within its bound -/

theorem skipSpace_length (cs : List Char) : (skipSpace cs).length ≤ cs.length :=
  (List.dropWhile_suffix isSpace).length_le

theorem skipSpace_cons {cs rest : List Char} {c : Char} (h : skipSpace cs = c :: rest) :
    rest.length < cs.length := by
  have := skipSpace_length cs
  rw [h] at this
  simpa using this

theorem scanLiteral_length (lit cs r : List Char) (h : scanLiteral lit cs = .ok r) :
    r.length ≤ cs.length := by
  induction lit generalizing cs with
  | nil => simp [scanLiteral] at h; subst h; exact Nat.le_refl _
  | cons l ls ih =>
    cases cs with
    | nil => simp [scanLiteral] at h
    | cons c cs =>
      simp only [scanLiteral] at h
      split at h
      · have := ih cs h
        simp; omega
      · cases h

theorem scanDigits1_length (cs ds r : List Char) (h : scanDigits1 cs = .ok (ds, r)) :
    r.length ≤ cs.length := by
  unfold scanDigits1 at h
  split at h
  · cases h
  · split at h
    · cases h
      exact (List.dropWhile_suffix _).length_le
    · cases h

theorem scanExp_length (acc cs lit r : List Char) (h : scanExp acc cs = .ok (lit, r)) :
    r.length ≤ cs.length := by
  unfold scanExp at h
  split at h
  · cases h; exact Nat.le_refl _
  · split at h
    · split at h
      · cases h
      · split at h
        · split at h
          · cases h
          · rename_i ds r2 hd
            cases h
            have := scanDigits1_length _ _ _ hd
            simp; omega
        · split at h
          · cases h
          · rename_i ds r2 hd
            cases h
            have := scanDigits1_length _ _ _ hd
            simp at this ⊢; omega
    · cases h; exact Nat.le_refl _

theorem scanFrac_length (acc cs lit r : List Char) (h : scanFrac acc cs = .ok (lit, r)) :
    r.length ≤ cs.length := by
  unfold scanFrac at h
  split at h
  · cases h; exact Nat.le_refl _
  · split at h
    · split at h
      · cases h
      · rename_i ds r2 hd
        have h1 := scanDigits1_length _ _ _ hd
        have h2 := scanExp_length _ _ _ _ h
        simp; omega
    · exact scanExp_length _ _ _ _ h

theorem scanInt_length (acc cs lit r : List Char) (h : scanInt acc cs = .ok (lit, r)) :
    r.length < cs.length := by
  unfold scanInt at h
  split at h
  · cases h
  · split at h
    · have := scanFrac_length _ _ _ _ h
      simp; omega
    · rename_i c r _
      split at h
      · have h1 := scanFrac_length _ _ _ _ h
        have h2 : (List.dropWhile Char.isDigit r).length ≤ r.length :=
          (List.dropWhile_suffix _).length_le
        simp; omega
      · cases h

theorem scanNumber_length (cs lit r : List Char) (h : scanNumber cs = .ok (lit, r)) :
    r.length < cs.length := by
  unfold scanNumber at h
  split at h
  · cases h
  · split at h
    · have := scanInt_length _ _ _ _ h
      simp; omega
    · exact scanInt_length _ _ _ _ h

theorem scanString_length_aux (n : Nat) : ∀ (cs : List Char), cs.length ≤ n →
    ∀ (us : List Nat) (r : List Char), scanString cs = .ok (us, r) → r.length < cs.length := by
  induction n with
  | zero =>
    intro cs hn us r h
    cases cs with
    | nil => simp [scanString] at h
    | cons c cs => simp at hn
  | succ n ih =>
    intro cs hn us r h
    unfold scanString at h
    split at h
    · cases h
    · rename_i c rest
      simp only [List.length_cons] at hn ⊢
      split at h
      · cases h; omega
      · split at h
        · split at h
          · cases h
          · rename_i e rest1
            simp only [List.length_cons] at hn ⊢
            split at h
            · split at h
              · rename_i a b c1 d rest2
                simp only [List.length_cons] at hn ⊢
                split at h
                · split at h
                  · cases h
                  · rename_i us1 r1 hrec
                    cases h
                    have := ih rest2 (by omega) _ _ hrec
                    omega
                · cases h
              · split at h <;> cases h
            · split at h
              · cases h
              · split at h
                · cases h
                · rename_i us1 r1 hrec
                  cases h
                  have := ih rest1 (by omega) _ _ hrec
                  omega
        · split at h
          · cases h
          · split at h
            · cases h
            · rename_i us1 r1 hrec
              cases h
              have := ih rest (by omega) _ _ hrec
              omega

theorem scanQuoted_length (cs : List Char) (str : String) (r : List Char)
    (h : scanQuoted cs = .ok (str, r)) : r.length < cs.length := by
  unfold scanQuoted at h
  split at h
  · cases h
  · rename_i us r1 hs
    cases h
    exact scanString_length_aux cs.length cs (Nat.le_refl _) _ _ hs

theorem scanScalar_length (c : Char) (rest : List Char) (v : JSON) (r : List Char)
    (h : scanScalar c rest = .ok (v, r)) : r.length ≤ rest.length := by
  unfold scanScalar at h
  split at h
  · split at h
    · cases h
    · rename_i str r1 hq
      cases h
      exact Nat.le_of_lt (scanQuoted_length _ _ _ hq)
  · split at h
    · split at h
      · cases h
      · rename_i lit r1 hq
        cases h
        have := scanNumber_length _ _ _ hq
        simp at this; omega
    · split at h
      · split at h
        · cases h
        · rename_i r1 hq
          cases h
          exact scanLiteral_length _ _ _ hq
      · split at h
        · split at h
          · cases h
          · rename_i r1 hq
            cases h
            exact scanLiteral_length _ _ _ hq
        · split at h
          · split at h
            · cases h
            · rename_i r1 hq
              cases h
              exact scanLiteral_length _ _ _ hq
          · cases h

theorem scanLiteral_bound (lit cs : List Char) :
    scanLiteral lit cs ≠ .error .scanOutOfFuel := by
  induction lit generalizing cs with
  | nil => simp [scanLiteral]
  | cons l ls ih =>
    cases cs with
    | nil => simp [scanLiteral]
    | cons c cs =>
      simp only [scanLiteral]
      split
      · exact ih cs
      · simp

theorem scanDigits1_bound (cs : List Char) : scanDigits1 cs ≠ .error .scanOutOfFuel := by
  unfold scanDigits1
  split
  · simp
  · split <;> simp

theorem scanExp_bound (acc cs : List Char) : scanExp acc cs ≠ .error .scanOutOfFuel := by
  unfold scanExp
  split
  · simp
  · split
    · split
      · simp
      · split
        · split
          · rename_i e he
            intro h
            cases h
            exact scanDigits1_bound _ he
          · simp
        · split
          · rename_i e he
            intro h
            cases h
            exact scanDigits1_bound _ he
          · simp
    · simp

theorem scanFrac_bound (acc cs : List Char) : scanFrac acc cs ≠ .error .scanOutOfFuel := by
  unfold scanFrac
  split
  · simp
  · split
    · split
      · rename_i e he
        intro h
        cases h
        exact scanDigits1_bound _ he
      · exact scanExp_bound _ _
    · exact scanExp_bound _ _

theorem scanNumber_bound (cs : List Char) : scanNumber cs ≠ .error .scanOutOfFuel := by
  have hint : ∀ acc cs, scanInt acc cs ≠ .error .scanOutOfFuel := by
    intro acc cs
    unfold scanInt
    split
    · simp
    · split
      · exact scanFrac_bound _ _
      · split
        · exact scanFrac_bound _ _
        · simp
  unfold scanNumber
  split
  · simp
  · split <;> exact hint _ _

theorem scanString_bound_aux (n : Nat) : ∀ (cs : List Char), cs.length ≤ n →
    scanString cs ≠ .error .scanOutOfFuel := by
  induction n with
  | zero =>
    intro cs hn
    cases cs with
    | nil => simp [scanString]
    | cons c cs => simp at hn
  | succ n ih =>
    intro cs hn
    unfold scanString
    split
    · simp
    · rename_i c rest
      simp only [List.length_cons] at hn
      split
      · simp
      · split
        · split
          · simp
          · rename_i e rest1
            simp only [List.length_cons] at hn
            split
            · split
              · rename_i a b c1 d rest2
                simp only [List.length_cons] at hn
                split
                · split
                  · rename_i err he
                    intro h
                    cases h
                    exact ih rest2 (by omega) he
                  · simp
                · simp
              · split <;> simp
            · split
              · simp
              · split
                · rename_i err he
                  intro h
                  cases h
                  exact ih rest1 (by omega) he
                · simp
        · split
          · simp
          · split
            · rename_i err he
              intro h
              cases h
              exact ih rest (by omega) he
            · simp

theorem scanQuoted_bound (cs : List Char) : scanQuoted cs ≠ .error .scanOutOfFuel := by
  unfold scanQuoted
  split
  · rename_i e he
    intro h
    cases h
    exact scanString_bound_aux cs.length cs (Nat.le_refl _) he
  · simp

theorem scanScalar_bound (c : Char) (rest : List Char) :
    scanScalar c rest ≠ .error .scanOutOfFuel := by
  unfold scanScalar
  split
  · split
    · rename_i e he
      intro h
      cases h
      exact scanQuoted_bound _ he
    · simp
  · split
    · split
      · rename_i e he
        intro h
        cases h
        exact scanNumber_bound _ he
      · simp
    · split
      · split
        · rename_i e he
          intro h
          cases h
          exact scanLiteral_bound _ _ he
        · simp
      · split
        · split
          · rename_i e he
            intro h
            cases h
            exact scanLiteral_bound _ _ he
          · simp
        · split
          · split
            · rename_i e he
              intro h
              cases h
              exact scanLiteral_bound _ _ he
            · simp
          · simp

/-- Each of the three scanners, when it returns, has consumed input. -/
theorem scan_progress (fuel : Nat) :
    (∀ depth cs v r, scanValue fuel depth cs = .ok (v, r) → r.length < cs.length) ∧
    (∀ depth cs ms r, scanMembers fuel depth cs = .ok (ms, r) → r.length < cs.length) ∧
    (∀ depth cs xs r, scanElems fuel depth cs = .ok (xs, r) → r.length < cs.length) := by
  induction fuel with
  | zero =>
    refine ⟨?_, ?_, ?_⟩ <;> intro depth cs v r h
    · simp [scanValue] at h
    · simp [scanMembers] at h
    · simp [scanElems] at h
  | succ n ih =>
    obtain ⟨ihV, ihM, ihE⟩ := ih
    refine ⟨?_, ?_, ?_⟩
    · intro depth cs v r h
      unfold scanValue at h
      split at h
      · cases h
      · rename_i c rest hs
        have h0 := skipSpace_cons hs
        split at h
        · split at h
          · cases h
          · split at h
            · cases h
            · rename_i c1 rest1 hs1
              have h1 := skipSpace_cons hs1
              split at h
              · cases h; omega
              · split at h
                · cases h
                · rename_i ms r1 hm
                  cases h
                  have := ihM _ _ _ _ hm
                  simp at this; omega
        · split at h
          · split at h
            · cases h
            · split at h
              · cases h
              · rename_i c1 rest1 hs1
                have h1 := skipSpace_cons hs1
                split at h
                · cases h; omega
                · split at h
                  · cases h
                  · rename_i xs r1 hm
                    cases h
                    have := ihE _ _ _ _ hm
                    simp at this; omega
          · have := scanScalar_length _ _ _ _ h
            omega
    · intro depth cs ms r h
      unfold scanMembers at h
      split at h
      · cases h
      · rename_i c rest hs
        have h0 := skipSpace_cons hs
        split at h
        · cases h
        · split at h
          · cases h
          · rename_i key r1 hq
            have h1 := scanQuoted_length _ _ _ hq
            split at h
            · cases h
            · rename_i c1 r2 hs2
              have h2 := skipSpace_cons hs2
              split at h
              · cases h
              · split at h
                · cases h
                · rename_i v r3 hv
                  have h3 := ihV _ _ _ _ hv
                  split at h
                  · cases h
                  · rename_i c3 r4 hs4
                    have h4 := skipSpace_cons hs4
                    split at h
                    · cases h; omega
                    · split at h
                      · split at h
                        · cases h
                        · rename_i ms1 r5 hm
                          cases h
                          have := ihM _ _ _ _ hm
                          omega
                      · cases h
    · intro depth cs xs r h
      unfold scanElems at h
      split at h
      · cases h
      · rename_i v r1 hv
        have h1 := ihV _ _ _ _ hv
        split at h
        · cases h
        · rename_i c r2 hs2
          have h2 := skipSpace_cons hs2
          split at h
          · cases h; omega
          · split at h
            · split at h
              · cases h
              · rename_i xs1 r3 hm
                cases h
                have := ihE _ _ _ _ hm
                omega
            · cases h

/-- With fuel of twice the length of the input and a little more, none of the three
scanners stops for lack of fuel. -/
theorem scan_bound (fuel : Nat) :
    (∀ depth cs, 2 * cs.length + 2 ≤ fuel →
      scanValue fuel depth cs ≠ .error .scanOutOfFuel) ∧
    (∀ depth cs, 2 * cs.length + 1 ≤ fuel →
      scanMembers fuel depth cs ≠ .error .scanOutOfFuel) ∧
    (∀ depth cs, 2 * cs.length + 3 ≤ fuel →
      scanElems fuel depth cs ≠ .error .scanOutOfFuel) := by
  induction fuel with
  | zero =>
    refine ⟨?_, ?_, ?_⟩ <;> intro depth cs hf <;> omega
  | succ n ih =>
    obtain ⟨ihV, ihM, ihE⟩ := ih
    obtain ⟨prV, _, _⟩ := scan_progress n
    refine ⟨?_, ?_, ?_⟩
    · intro depth cs hf
      unfold scanValue
      split
      · simp
      · rename_i c rest hs
        have h0 := skipSpace_cons hs
        split
        · split
          · simp
          · split
            · simp
            · rename_i c1 rest1 hs1
              have h1 := skipSpace_cons hs1
              split
              · simp
              · split
                · rename_i e he
                  intro h
                  cases h
                  exact ihM _ _ (by simp; omega) he
                · simp
        · split
          · split
            · simp
            · split
              · simp
              · rename_i c1 rest1 hs1
                have h1 := skipSpace_cons hs1
                split
                · simp
                · split
                  · rename_i e he
                    intro h
                    cases h
                    exact ihE _ _ (by simp; omega) he
                  · simp
          · exact scanScalar_bound _ _
    · intro depth cs hf
      unfold scanMembers
      split
      · simp
      · rename_i c rest hs
        have h0 := skipSpace_cons hs
        split
        · simp
        · split
          · rename_i e he
            intro h
            cases h
            exact scanQuoted_bound _ he
          · rename_i key r1 hq
            have h1 := scanQuoted_length _ _ _ hq
            split
            · simp
            · rename_i c1 r2 hs2
              have h2 := skipSpace_cons hs2
              split
              · simp
              · split
                · rename_i e he
                  intro h
                  cases h
                  exact ihV _ _ (by omega) he
                · rename_i v r3 hv
                  have h3 := prV _ _ _ _ hv
                  split
                  · simp
                  · rename_i c3 r4 hs4
                    have h4 := skipSpace_cons hs4
                    split
                    · simp
                    · split
                      · split
                        · rename_i e he
                          intro h
                          cases h
                          exact ihM _ _ (by omega) he
                        · simp
                      · simp
    · intro depth cs hf
      unfold scanElems
      split
      · rename_i e he
        intro h
        cases h
        exact ihV _ _ (by omega) he
      · rename_i v r1 hv
        have h1 := prV _ _ _ _ hv
        split
        · simp
        · rename_i c r2 hs2
          have h2 := skipSpace_cons hs2
          split
          · simp
          · split
            · split
              · rename_i e he
                intro h
                cases h
                exact ihE _ _ (by omega) he
              · simp
            · simp

/-- Go `(*Decoder).readValue` always ends: it returns a value or one of Go's errors. -/
theorem readValue_terminates (content : String) :
    readValue content ≠ .error .scanOutOfFuel := by
  unfold readValue
  split
  · simp
  · exact (scan_bound _).1 0 _ (Nat.le_refl _)

/-! ## Lemmas on struct values and on storing an object -/

theorem Struct.keys_set {V : Type} (s : Struct V) (n : String) (v : V) :
    (s.set n v).map Prod.fst = s.map Prod.fst := by
  unfold Struct.set
  induction s with
  | nil => rfl
  | cons e s ih =>
    simp only [List.map_cons, ih]
    by_cases h : e.1 = n <;> simp [h]

theorem Struct.get_set_same {V : Type} (s : Struct V) (n : String) (v : V)
    (hn : n ∈ s.map Prod.fst) : (s.set n v).get n = some v := by
  unfold Struct.get Struct.set
  induction s with
  | nil => simp at hn
  | cons e s ih =>
    obtain ⟨k, x⟩ := e
    by_cases h : k = n
    · subst h
      simp [List.lookup_cons]
    · have hn2 : n ∈ s.map Prod.fst := by
        simp only [List.map_cons, List.mem_cons] at hn
        rcases hn with hn | hn
        · exact absurd hn.symm h
        · exact hn
      have hne : (n == k) = false := by
        simp; exact fun hh => h hh.symm
      simp only [List.map_cons, h, if_false, List.lookup_cons, hne]
      exact ih hn2

theorem Struct.get_set_other {V : Type} (s : Struct V) (n m : String) (v : V) (hmn : m ≠ n) :
    (s.set n v).get m = s.get m := by
  unfold Struct.get Struct.set
  induction s with
  | nil => rfl
  | cons e s ih =>
    obtain ⟨k, x⟩ := e
    by_cases h : k = n
    · subst h
      have hne : (m == k) = false := by simpa using hmn
      simp only [List.map_cons, if_true, List.lookup_cons, hne]
      exact ih
    · simp only [List.map_cons, h, if_false, List.lookup_cons]
      cases (m == k)
      · exact ih
      · rfl

/-- The fields `typeFields` keeps have distinct names. -/
theorem typeFields_nodup {V : Type} (schema : List (Field V)) :
    ((typeFields schema).map Field.Name).Nodup := by
  rw [List.nodup_iff_count_le_one]
  intro a
  rw [List.count_eq_countP, List.countP_map, typeFields, List.countP_filter]
  by_cases h1 : schema.countP (fun g => decide (g.Name = a)) = 1
  · calc List.countP (fun f => ((fun x => x == a) ∘ Field.Name) f && dominant schema f) schema
        ≤ List.countP (fun g => decide (g.Name = a)) schema := by
          apply List.countP_mono_left
          intro f _ hf
          simp only [Function.comp, Bool.and_eq_true, beq_iff_eq] at hf
          simpa using hf.1
      _ = 1 := h1
  · by_cases h2 : schema.countP (fun g => decide (g.Name = a) && g.Tagged) = 1
    · calc List.countP (fun f => ((fun x => x == a) ∘ Field.Name) f && dominant schema f) schema
          ≤ List.countP (fun g => decide (g.Name = a) && g.Tagged) schema := by
            apply List.countP_mono_left
            intro f _ hf
            simp only [Function.comp, Bool.and_eq_true, beq_iff_eq] at hf
            obtain ⟨hn, hd⟩ := hf
            subst hn
            unfold dominant at hd
            by_cases ht : f.Tagged = true
            · simp [ht]
            · simp only [ht] at hd
              simp at hd
              exact absurd hd h1
        _ = 1 := h2
    · have hz : List.countP (fun f => ((fun x => x == a) ∘ Field.Name) f && dominant schema f)
          schema = 0 := by
        rw [List.countP_eq_zero]
        intro f _ hf
        simp only [Function.comp, Bool.and_eq_true, beq_iff_eq] at hf
        obtain ⟨hn, hd⟩ := hf
        subst hn
        unfold dominant at hd
        by_cases ht : f.Tagged = true
        · simp only [ht, if_true] at hd
          simp at hd
          exact h2 hd
        · simp only [ht] at hd
          simp at hd
          exact h1 hd
      omega

theorem findField_mem {V : Type} {foldRune : Char → Char} {fields : List (Field V)}
    {key : String} {f : Field V} (h : findField foldRune fields key = some f) :
    f ∈ typeFields fields := by
  unfold findField at h
  split at h
  · rename_i g hg
    cases h
    exact List.mem_of_find?_eq_some hg
  · exact List.mem_of_find?_eq_some h

/-- On a name made of ASCII characters, folding does not consult `foldRune`. -/
theorem foldName_ascii (foldRune foldRune2 : Char → Char) (s : String)
    (h : ∀ c ∈ s.data, c.toNat < 128) : foldName foldRune s = foldName foldRune2 s := by
  unfold foldName
  apply List.map_congr_left
  intro c hc
  simp [h c hc]

theorem wrongType_iff (k : Kind) (v : JSON) :
    wrongType k v = true ↔ ∃ desc, storeField k v = .error desc := by
  cases v <;> cases k <;> simp [wrongType, storeField]
  rename_i lit
  cases parseInt64 lit <;> simp

/-- A field of kind int, string or bool does not take a value of the wrong type. -/
theorem basicField_rejects (fieldName : String) (k : Kind) (j : JSON)
    (h : wrongType k j = true) : (basicField fieldName k).rejects j := by
  obtain ⟨desc, hd⟩ := (wrongType_iff k j).mp h
  intro cur
  simp [basicField, hd]

/-- A field of kind int, string or bool takes `null` and every value of its own type. -/
theorem basicField_accepts (fieldName : String) (k : Kind) (j : JSON)
    (h : wrongType k j = false) : (basicField fieldName k).accepts j := by
  intro cur
  cases hs : storeField k j with
  | error desc =>
    have := (wrongType_iff k j).mpr ⟨desc, hs⟩
    rw [h] at this
    cases this
  | ok o =>
    cases o <;> simp [basicField, hs]

theorem storeMembers_unknown {V : Type} (foldRune : Char → Char) (fields : List (Field V))
    (m : String × JSON) (ms : List (String × JSON)) (cur : Struct V) (saved : Option GoError)
    (h : findField foldRune fields m.1 = none) :
    storeMembers foldRune fields (m :: ms) cur saved =
      storeMembers foldRune fields ms cur saved := by
  simp [storeMembers, h]

theorem storeMembers_done {V : Type} (foldRune : Char → Char) (fields : List (Field V))
    (m : String × JSON) (ms : List (String × JSON)) (cur : Struct V) (saved : Option GoError)
    (f : Field V) (v : V) (h : findField foldRune fields m.1 = some f)
    (hs : f.store m.2 ((cur.get f.Name).getD f.zero) = (v, .done)) :
    storeMembers foldRune fields (m :: ms) cur saved =
      storeMembers foldRune fields ms (cur.set f.Name v) saved := by
  simp [storeMembers, h, hs]

theorem storeMembers_saved {V : Type} (foldRune : Char → Char) (fields : List (Field V))
    (m : String × JSON) (ms : List (String × JSON)) (cur : Struct V) (saved : Option GoError)
    (f : Field V) (v : V) (err : GoError) (h : findField foldRune fields m.1 = some f)
    (hs : f.store m.2 ((cur.get f.Name).getD f.zero) = (v, .saved err)) :
    storeMembers foldRune fields (m :: ms) cur saved =
      storeMembers foldRune fields ms (cur.set f.Name v) (saveError saved err) := by
  simp [storeMembers, h, hs]

theorem storeMembers_failed {V : Type} (foldRune : Char → Char) (fields : List (Field V))
    (m : String × JSON) (ms : List (String × JSON)) (cur : Struct V) (saved : Option GoError)
    (f : Field V) (v : V) (err : GoError) (h : findField foldRune fields m.1 = some f)
    (hs : f.store m.2 ((cur.get f.Name).getD f.zero) = (v, .failed err)) :
    storeMembers foldRune fields (m :: ms) cur saved = (cur.set f.Name v, some err) := by
  simp [storeMembers, h, hs]

theorem saveError_ne_none (saved : Option GoError) (e : GoError) :
    saveError saved e ≠ none := by
  cases saved <;> simp [saveError]

/-- An error recorded before the rest of the object is stored is not lost. -/
theorem storeMembers_error_kept {V : Type} (foldRune : Char → Char) (fields : List (Field V))
    (ms : List (String × JSON)) (cur : Struct V) (saved : Option GoError)
    (h : saved ≠ none) : (storeMembers foldRune fields ms cur saved).2 ≠ none := by
  induction ms generalizing cur saved with
  | nil => exact h
  | cons m ms ih =>
    cases hf : findField foldRune fields m.1 with
    | none => rw [storeMembers_unknown _ _ _ _ _ _ hf]; exact ih cur saved h
    | some f =>
      rcases hs : f.store m.2 ((cur.get f.Name).getD f.zero) with ⟨v, _ | err | err⟩
      · rw [storeMembers_done _ _ _ _ _ _ f v hf hs]; exact ih _ saved h
      · rw [storeMembers_saved _ _ _ _ _ _ f v err hf hs]
        exact ih _ _ (saveError_ne_none saved err)
      · rw [storeMembers_failed _ _ _ _ _ _ f v err hf hs]; simp

/-- Storing an object one of whose members is matched to a field that does not take its
value ends with an error. -/
theorem storeMembers_rejected {V : Type} (foldRune : Char → Char) (fields : List (Field V))
    (ms : List (String × JSON)) (cur : Struct V) (saved : Option GoError)
    (h : ∃ m ∈ ms, ∃ f, findField foldRune fields m.1 = some f ∧ f.rejects m.2) :
    (storeMembers foldRune fields ms cur saved).2 ≠ none := by
  induction ms generalizing cur saved with
  | nil => obtain ⟨m, hm, _⟩ := h; cases hm
  | cons x ms ih =>
    obtain ⟨m, hm, f, hfind, hrej⟩ := h
    cases hf : findField foldRune fields x.1 with
    | none =>
      rw [storeMembers_unknown _ _ _ _ _ _ hf]
      rcases List.mem_cons.mp hm with rfl | hm
      · rw [hf] at hfind; cases hfind
      · exact ih cur saved ⟨m, hm, f, hfind, hrej⟩
    | some g =>
      rcases hs : g.store x.2 ((cur.get g.Name).getD g.zero) with ⟨v, _ | err | err⟩
      · rw [storeMembers_done _ _ _ _ _ _ g v hf hs]
        rcases List.mem_cons.mp hm with rfl | hm
        · rw [hf] at hfind
          cases hfind
          have hbad := hrej ((cur.get f.Name).getD f.zero)
          rw [hs] at hbad
          exact absurd rfl hbad
        · exact ih _ saved ⟨m, hm, f, hfind, hrej⟩
      · rw [storeMembers_saved _ _ _ _ _ _ g v err hf hs]
        exact storeMembers_error_kept _ _ _ _ _ (saveError_ne_none saved err)
      · rw [storeMembers_failed _ _ _ _ _ _ g v err hf hs]; simp

/-- Storing an object whose matched members are all taken by their fields records no
error. -/
theorem storeMembers_accepted {V : Type} (foldRune : Char → Char) (fields : List (Field V))
    (ms : List (String × JSON)) (cur : Struct V) (saved : Option GoError)
    (hfit : ∀ m ∈ ms, ∀ f, findField foldRune fields m.1 = some f → f.accepts m.2) :
    (storeMembers foldRune fields ms cur saved).2 = saved := by
  induction ms generalizing cur with
  | nil => rfl
  | cons m ms ih =>
    have hfit2 : ∀ x ∈ ms, ∀ f, findField foldRune fields x.1 = some f → f.accepts x.2 :=
      fun x hx => hfit x (List.mem_cons_of_mem _ hx)
    cases hf : findField foldRune fields m.1 with
    | none => rw [storeMembers_unknown _ _ _ _ _ _ hf]; exact ih cur hfit2
    | some f =>
      have hacc := hfit m (List.mem_cons_self _ _) f hf ((cur.get f.Name).getD f.zero)
      rcases hs : f.store m.2 ((cur.get f.Name).getD f.zero) with ⟨v, out⟩
      rw [hs] at hacc
      simp only at hacc
      subst hacc
      rw [storeMembers_done _ _ _ _ _ _ f v hf hs]
      exact ih _ hfit2

/-- After an object whose matched members are all taken has been stored, a field either
keeps the value it had, no member being matched to it, or holds what its decoder made
of the value of a member matched to it. -/
theorem storeMembers_get {V : Type} (foldRune : Char → Char) (fields : List (Field V))
    (fieldName : String) (ms : List (String × JSON)) (cur : Struct V)
    (saved : Option GoError) (hkey : fieldName ∈ cur.map Prod.fst)
    (hfit : ∀ m ∈ ms, ∀ f, findField foldRune fields m.1 = some f → f.accepts m.2) :
    ((storeMembers foldRune fields ms cur saved).1.get fieldName = cur.get fieldName ∧
        ∀ m ∈ ms, ∀ g, findField foldRune fields m.1 = some g → g.Name ≠ fieldName) ∨
      (∃ m ∈ ms, ∃ g c, findField foldRune fields m.1 = some g ∧ g.Name = fieldName ∧
        (storeMembers foldRune fields ms cur saved).1.get fieldName =
          some (g.store m.2 c).1) := by
  induction ms generalizing cur with
  | nil => exact Or.inl ⟨rfl, by simp⟩
  | cons m ms ih =>
    have hfit2 : ∀ x ∈ ms, ∀ f, findField foldRune fields x.1 = some f → f.accepts x.2 :=
      fun x hx => hfit x (List.mem_cons_of_mem _ hx)
    cases hf : findField foldRune fields m.1 with
    | none =>
      rw [storeMembers_unknown _ _ _ _ _ _ hf]
      rcases ih cur hkey hfit2 with ⟨hget, hno⟩ | ⟨x, hx, g, c, h1, h2, h3⟩
      · left
        refine ⟨hget, ?_⟩
        intro x hx g hg
        rcases List.mem_cons.mp hx with rfl | hx
        · rw [hf] at hg; cases hg
        · exact hno x hx g hg
      · right
        exact ⟨x, List.mem_cons_of_mem _ hx, g, c, h1, h2, h3⟩
    | some f =>
      have hacc := hfit m (List.mem_cons_self _ _) f hf ((cur.get f.Name).getD f.zero)
      rcases hs : f.store m.2 ((cur.get f.Name).getD f.zero) with ⟨v, out⟩
      rw [hs] at hacc
      simp only at hacc
      subst hacc
      rw [storeMembers_done _ _ _ _ _ _ f v hf hs]
      have hkey2 : fieldName ∈ (cur.set f.Name v).map Prod.fst := by
        rw [Struct.keys_set]; exact hkey
      rcases ih (cur.set f.Name v) hkey2 hfit2 with ⟨hget, hno⟩ | ⟨x, hx, g, c, h1, h2, h3⟩
      · by_cases hname : f.Name = fieldName
        · right
          refine ⟨m, List.mem_cons_self _ _, f, (cur.get f.Name).getD f.zero, hf, hname, ?_⟩
          rw [hget, hs]
          subst hname
          exact Struct.get_set_same _ _ _ hkey
        · left
          refine ⟨?_, ?_⟩
          · rw [hget]
            exact Struct.get_set_other _ _ _ _ (fun hh => hname hh.symm)
          · intro x hx g2 hg2
            rcases List.mem_cons.mp hx with rfl | hx
            · rw [hf] at hg2; cases hg2; exact hname
            · exact hno x hx g2 hg2
      · right
        exact ⟨x, List.mem_cons_of_mem _ hx, g, c, h1, h2, h3⟩

/-- Decoding into a struct, once the document has been read as an object. -/
theorem structTarget_Decode_object {V : Type} (foldRune : Char → Char)
    (schema : List (Field V)) (content : String) (ms : List (String × JSON))
    (rest : List Char) (cur : Struct V)
    (hread : readValue content = .ok (.object ms, rest)) :
    (structTarget foldRune schema).Decode content cur =
      storeMembers foldRune schema ms cur none := by
  simp [structTarget, hread, unmarshalStruct]

/-- An object that matches the struct field for field is stored without error and leaves
in every field what the decoder of the field made of a member matched to that field. -/
theorem structTarget_populated {V : Type} (foldRune : Char → Char) (schema : List (Field V))
    (content : String) (ms : List (String × JSON)) (rest : List Char)
    (hread : readValue content = .ok (.object ms, rest))
    (hshape : matchesShape foldRune schema ms) :
    ∃ sv, (structTarget foldRune schema).Decode content (structTarget foldRune schema).zero =
        (sv, none) ∧
      ∀ f ∈ typeFields schema, ∃ m ∈ ms, ∃ cur,
        findField foldRune schema m.1 = some f ∧
          (f.store m.2 cur).2 = .done ∧ sv.get f.Name = some (f.store m.2 cur).1 := by
  obtain ⟨hpresent, hfit⟩ := hshape
  rw [structTarget_Decode_object foldRune schema content ms rest _ hread]
  refine ⟨(storeMembers foldRune schema ms
    (structTarget foldRune schema).zero none).1, ?_, ?_⟩
  · exact Prod.ext rfl (storeMembers_accepted _ _ _ _ _ hfit)
  · intro f hf
    have hkey : f.Name ∈ ((structTarget foldRune schema).zero).map Prod.fst := by
      simp only [structTarget, zeroStruct, List.map_map]
      exact List.mem_map.mpr ⟨f, hf, rfl⟩
    obtain ⟨m0, hm0, hfind0⟩ := hpresent f hf
    rcases storeMembers_get foldRune schema f.Name ms _ none hkey hfit with
      ⟨_, hno⟩ | ⟨m, hm, g, c, h1, h2, h3⟩
    · exact absurd rfl (hno m0 hm0 f hfind0)
    · have hg : g = f :=
        List.inj_on_of_nodup_map (typeFields_nodup schema) (findField_mem h1) hf h2
      subst hg
      exact ⟨m, hm, c, h1, hfit m hm g h1 c, h3⟩

/-- Keys are matched under Unicode case folding: with the long s folded to `S`, the key
`Hoſt` is stored into the string field `Host`, where the number 5 is a type error, and
`LoadConfig` returns that error and no value. -/
theorem LoadConfig_folded_key_type_error :
    (LoadConfig (structTarget foldRuneSample hostSchema)
        (oneFile "\x7b\"Hoſt\":5,\"Host\":\"h\",\"Port\":1,\"Key\":\"k\"\x7d")
        "/etc/app.json").1 =
      (none, some (.UnmarshalTypeError "number" "Host")) := by
  decide

/-- The first field whose folded name is the folded key takes the key: in a struct with
an int field `Hoſt` before a string field `Host`, the key `host` is stored into `Hoſt`. -/
theorem LoadConfig_folded_key_first_field :
    (LoadConfig
        (structTarget foldRuneSample [basicField "Hoſt" .int, basicField "Host" .string])
        (oneFile "\x7b\"host\":5\x7d") "/etc/app.json").1 =
      (some [("Hoſt", .int 5), ("Host", .string "")], none) := by
  decide

/-- Fields that share one JSON name are not decoded into: with two tagged fields `x`, of
kind int and string, the key `x` is skipped and the struct is empty for JSON. -/
theorem LoadConfig_conflicting_fields_skipped :
    (LoadConfig
        (structTarget foldRuneSample
          [{ basicField "x" .int with Tagged := true },
           { basicField "x" .string with Tagged := true }])
        (oneFile "\x7b\"x\":true\x7d") "/etc/app.json").1 = (some [], none) := by
  decide

/-- A value of the type of a field of kind int, string or bool is stored as such. -/
theorem rightType_stored (k : Kind) (j : JSON) (h : rightType k j = true) :
    ∃ gv, storeField k j = .ok (some gv) := by
  cases j <;> cases k <;> simp [rightType] at h <;> simp [storeField]
  rename_i lit
  cases hp : parseInt64 lit with
  | none => rw [hp] at h; cases h
  | some n => exact ⟨.int n, rfl⟩

theorem basicField_store_stored (fieldName : String) (k : Kind) (j : JSON) (gv cur : GoVal)
    (h : storeField k j = .ok (some gv)) :
    (basicField fieldName k).store j cur = (gv, .done) := by
  simp [basicField, h]

theorem mem_basicSchema {fields : List (String × Kind)} {f : Field GoVal}
    (h : f ∈ typeFields (basicSchema fields)) : ∃ n k, f = basicField n k := by
  have h1 : f ∈ basicSchema fields := (List.mem_filter.mp h).1
  obtain ⟨p, _, hp⟩ := List.mem_map.mp h1
  exact ⟨p.1, p.2, hp.symm⟩

/-- Matching by names and kinds is matching field for field. -/
theorem matchesKinds_matchesShape (foldRune : Char → Char) (fields : List (String × Kind))
    (ms : List (String × JSON)) (h : matchesKinds foldRune fields ms) :
    matchesShape foldRune (basicSchema fields) ms := by
  refine ⟨h.1, ?_⟩
  intro m hm f hf
  obtain ⟨n, k, rfl⟩ := mem_basicSchema (findField_mem hf)
  obtain ⟨gv, hgv⟩ := rightType_stored k m.2 (h.2 m hm n k hf)
  intro cur
  rw [basicField_store_stored n k m.2 gv cur hgv]

/-- The examples on `serverSchema` do not depend on the folding of runes: their keys are
the exact names of the fields. -/
theorem serverSchema_examples_any_folding (foldRune : Char → Char) :
    (LoadConfig (structTarget foldRune serverSchema)
        (oneFile "\x7b\"Name\":\"x\",\"Port\":8080\x7d") "/etc/app.json").1 =
      (some [("Name", .string "x"), ("Port", .int 8080)], none) ∧
    (LoadConfig (structTarget foldRune serverSchema)
        (oneFile "\x7b\"Name\":\"x\"\x7d") "/etc/app.json").1 =
      (some [("Name", .string "x"), ("Port", .int 0)], none) ∧
    (LoadConfig (structTarget foldRune serverSchema)
        (oneFile "\x7b\"Name\":\"x\",\"Port\":null\x7d") "/etc/app.json").1 =
      (some [("Name", .string "x"), ("Port", .int 0)], none) ∧
    (LoadConfig (structTarget foldRune serverSchema)
        (oneFile "\x7b\"Name\":\"x\",\"Port\":\"80\"\x7d") "/etc/app.json").1 =
      (none, some (.UnmarshalTypeError "string" "Port")) :=
  ⟨rfl, rfl, rfl, rfl⟩

/-! ## `LoadConfig`: success and shape mismatch -/

/-- C7. Success: when the file opens, `LoadConfig` returns a value and no error exactly
when the JSON decoder, started from the zero value of `T`, stores the content without
error, and the value is the one the decoder produced.  For a struct `T`, whatever the
types of its fields, and a document that is an object matching `T` field for field,
the decoder does so, and every field holds what was decoded from a member of the
document matched to that field: all fields are populated.  For fields of kind int,
string and bool, a member of the type of its field is stored as the value it denotes. -/
theorem LoadConfig_success {T : Type} (d : JSONTarget T) (w : World)
    (filePath content : String)
    (hopen : w.files filePath = .ok content) :
    (∀ v, (LoadConfig d w filePath).1 = (some v, none) ↔
        d.Decode content d.zero = (v, none)) ∧
      (∀ (V : Type) (foldRune : Char → Char) (schema : List (Field V))
        (ms : List (String × JSON)) (rest : List Char),
        readValue content = .ok (.object ms, rest) → matchesShape foldRune schema ms →
        ∃ sv, (LoadConfig (structTarget foldRune schema) w filePath).1 = (some sv, none) ∧
          (structTarget foldRune schema).Decode content (structTarget foldRune schema).zero =
            (sv, none) ∧
          ∀ f ∈ typeFields schema, ∃ m ∈ ms, ∃ cur,
            findField foldRune schema m.1 = some f ∧
              (f.store m.2 cur).2 = .done ∧ sv.get f.Name = some (f.store m.2 cur).1) ∧
      (∀ (foldRune : Char → Char) (fields : List (String × Kind))
        (ms : List (String × JSON)) (rest : List Char),
        readValue content = .ok (.object ms, rest) → matchesKinds foldRune fields ms →
        ∃ sv, (LoadConfig (structTarget foldRune (basicSchema fields)) w filePath).1 =
            (some sv, none) ∧
          ∀ n k, basicField n k ∈ typeFields (basicSchema fields) → ∃ m ∈ ms, ∃ gv,
            findField foldRune (basicSchema fields) m.1 = some (basicField n k) ∧
              storeField k m.2 = .ok (some gv) ∧ sv.get n = some gv) := by
  have hstruct : ∀ (V : Type) (foldRune : Char → Char) (schema : List (Field V))
      (ms : List (String × JSON)) (rest : List Char),
      readValue content = .ok (.object ms, rest) → matchesShape foldRune schema ms →
      ∃ sv, (LoadConfig (structTarget foldRune schema) w filePath).1 = (some sv, none) ∧
        (structTarget foldRune schema).Decode content (structTarget foldRune schema).zero =
          (sv, none) ∧
        ∀ f ∈ typeFields schema, ∃ m ∈ ms, ∃ cur,
          findField foldRune schema m.1 = some f ∧
            (f.store m.2 cur).2 = .done ∧ sv.get f.Name = some (f.store m.2 cur).1 := by
    intro V foldRune schema ms rest hread hshape
    obtain ⟨sv, hsv, hall⟩ := structTarget_populated foldRune schema content ms rest hread hshape
    refine ⟨sv, ?_, hsv, hall⟩
    rw [LoadConfig_opened (structTarget foldRune schema) w filePath content hopen, hsv]
  refine ⟨?_, hstruct, ?_⟩
  · intro v
    rw [LoadConfig_opened d w filePath content hopen]
    rcases hd : d.Decode content d.zero with ⟨v1, _ | err⟩ <;> simp
  · intro foldRune fields ms rest hread hkinds
    obtain ⟨sv, hsv, _, hall⟩ := hstruct GoVal foldRune (basicSchema fields) ms rest hread
      (matchesKinds_matchesShape foldRune fields ms hkinds)
    refine ⟨sv, hsv, ?_⟩
    intro n k hmem
    obtain ⟨m, hm, cur, hfind, _, hget⟩ := hall (basicField n k) hmem
    obtain ⟨gv, hgv⟩ := rightType_stored k m.2 (hkinds.2 m hm n k hfind)
    rw [basicField_store_stored n k m.2 gv cur hgv] at hget
    exact ⟨m, hm, gv, hfind, hgv, hget⟩

/-- The document with both fields of `serverSchema` matches it by names and kinds. -/
theorem serverDocument_matchesKinds :
    matchesKinds foldRuneSample [("Name", .string), ("Port", .int)]
      [("Name", .string "x"), ("Port", .number "8080")] := by
  have ht : typeFields (basicSchema [("Name", .string), ("Port", .int)]) = serverSchema := rfl
  have h1 : findField foldRuneSample (basicSchema [("Name", .string), ("Port", .int)]) "Name" =
      some (basicField "Name" .string) := rfl
  have h2 : findField foldRuneSample (basicSchema [("Name", .string), ("Port", .int)]) "Port" =
      some (basicField "Port" .int) := rfl
  unfold matchesKinds
  rw [ht]
  constructor
  · intro f hf
    simp only [serverSchema, List.mem_cons, List.mem_singleton, List.not_mem_nil, or_false] at hf
    rcases hf with rfl | rfl
    · exact ⟨("Name", .string "x"), by simp, h1⟩
    · exact ⟨("Port", .number "8080"), by simp, h2⟩
  · intro m hm n k hf
    simp only [List.mem_cons, List.mem_singleton, List.not_mem_nil, or_false] at hm
    rcases hm with rfl | rfl
    · rw [show ("Name", JSON.string "x").1 = "Name" from rfl, h1] at hf
      have hk : k = .string := by
        have := congrArg (fun o => o.map Field.zero) hf
        cases k <;> first | rfl | simp [basicField, Kind.zero] at this
      subst hk
      rfl
    · rw [show ("Port", JSON.number "8080").1 = "Port" from rfl, h2] at hf
      have hk : k = .int := by
        have := congrArg (fun o => o.map Field.zero) hf
        cases k <;> first | rfl | simp [basicField, Kind.zero] at this
      subst hk
      rfl

/-- C7 on a document giving both fields of the struct: the result is the struct with
`Name` set to `x` and `Port` set to 8080. -/
theorem LoadConfig_success_witness :
    (LoadConfig (structTarget foldRuneSample serverSchema)
        (oneFile "\x7b\"Name\":\"x\",\"Port\":8080\x7d") "/etc/app.json").1 =
      (some [("Name", .string "x"), ("Port", .int 8080)], none) ∧
    (∃ sv, (LoadConfig (structTarget foldRuneSample serverSchema)
        (oneFile "\x7b\"Name\":\"x\",\"Port\":8080\x7d") "/etc/app.json").1 = (some sv, none) ∧
      (structTarget foldRuneSample serverSchema).Decode "\x7b\"Name\":\"x\",\"Port\":8080\x7d"
          (structTarget foldRuneSample serverSchema).zero = (sv, none) ∧
      ∀ f ∈ typeFields serverSchema,
        ∃ m ∈ [("Name", JSON.string "x"), ("Port", JSON.number "8080")], ∃ cur,
          findField foldRuneSample serverSchema m.1 = some f ∧
            (f.store m.2 cur).2 = .done ∧ sv.get f.Name = some (f.store m.2 cur).1) ∧
    (∃ sv, (LoadConfig
          (structTarget foldRuneSample (basicSchema [("Name", .string), ("Port", .int)]))
          (oneFile "\x7b\"Name\":\"x\",\"Port\":8080\x7d") "/etc/app.json").1 =
        (some sv, none) ∧
      ∀ n k, basicField n k ∈ typeFields (basicSchema [("Name", .string), ("Port", .int)]) →
        ∃ m ∈ [("Name", JSON.string "x"), ("Port", JSON.number "8080")], ∃ gv,
          findField foldRuneSample (basicSchema [("Name", .string), ("Port", .int)])
              m.1 = some (basicField n k) ∧
            storeField k m.2 = .ok (some gv) ∧ sv.get n = some gv) :=
  ⟨((LoadConfig_success (structTarget foldRuneSample serverSchema)
      (oneFile "\x7b\"Name\":\"x\",\"Port\":8080\x7d") "/etc/app.json"
      "\x7b\"Name\":\"x\",\"Port\":8080\x7d" (by decide)).1
      [("Name", .string "x"), ("Port", .int 8080)]).mpr (by decide),
   (LoadConfig_success (structTarget foldRuneSample serverSchema)
      (oneFile "\x7b\"Name\":\"x\",\"Port\":8080\x7d") "/etc/app.json"
      "\x7b\"Name\":\"x\",\"Port\":8080\x7d" (by decide)).2.1
      GoVal foldRuneSample serverSchema
      [("Name", .string "x"), ("Port", .number "8080")] [] rfl
      (matchesKinds_matchesShape foldRuneSample [("Name", .string), ("Port", .int)] _
        serverDocument_matchesKinds),
   (LoadConfig_success (structTarget foldRuneSample serverSchema)
      (oneFile "\x7b\"Name\":\"x\",\"Port\":8080\x7d") "/etc/app.json"
      "\x7b\"Name\":\"x\",\"Port\":8080\x7d" (by decide)).2.2
      foldRuneSample [("Name", .string), ("Port", .int)]
      [("Name", .string "x"), ("Port", .number "8080")] [] rfl serverDocument_matchesKinds⟩

/-- C10 fails for an absent field and for `null`.  The object of the first file has no
member for the field `Port` of the struct, the object of the second gives `null`, which
is not a number, to the int field `Port`; for both `LoadConfig` returns a value, with
`Port` at its zero value, and no error. -/
theorem LoadConfig_absent_field_counterexample :
    (readValue "\x7b\"Name\":\"x\"\x7d" = .ok (.object [("Name", .string "x")], []) ∧
      (findField foldRuneSample serverSchema "Name").map Field.Name ≠ some "Port" ∧
      (LoadConfig (structTarget foldRuneSample serverSchema)
          (oneFile "\x7b\"Name\":\"x\"\x7d") "/etc/app.json").1 =
        (some [("Name", .string "x"), ("Port", .int 0)], none)) ∧
    (readValue "\x7b\"Name\":\"x\",\"Port\":null\x7d" =
        .ok (.object [("Name", .string "x"), ("Port", .null)], []) ∧
      (findField foldRuneSample serverSchema "Port").map Field.Name = some "Port" ∧
      rightType .int .null = false ∧
      (LoadConfig (structTarget foldRuneSample serverSchema)
          (oneFile "\x7b\"Name\":\"x\",\"Port\":null\x7d") "/etc/app.json").1 =
        (some [("Name", .string "x"), ("Port", .int 0)], none)) :=
  ⟨⟨rfl, by decide, by decide⟩, ⟨rfl, by decide, by decide, by decide⟩⟩

/-- C10, amended. Type mismatch: for every struct `T`, whatever the types of its fields,
and every file holding a JSON object in which a member matched to a field of `T` carries
a value the decoder of the field does not take, `LoadConfig` returns a decode error and
no value.  For a field of kind int, string or bool these values are the values other
than `null` of another type, as a string where an integer is expected. -/
theorem LoadConfig_type_mismatch (w : World) (filePath content : String)
    (ms : List (String × JSON)) (rest : List Char)
    (hopen : w.files filePath = .ok content)
    (hread : readValue content = .ok (.object ms, rest)) :
    (∀ (V : Type) (foldRune : Char → Char) (schema : List (Field V)),
        (∃ m ∈ ms, ∃ f, findField foldRune schema m.1 = some f ∧
          f.rejects m.2) →
        ∃ err, (LoadConfig (structTarget foldRune schema) w filePath).1 = (none, some err)) ∧
      (∀ (foldRune : Char → Char) (fields : List (String × Kind)),
        (∃ m ∈ ms, ∃ n k,
          findField foldRune (basicSchema fields) m.1 = some (basicField n k) ∧
            wrongType k m.2 = true) →
        ∃ err, (LoadConfig (structTarget foldRune (basicSchema fields)) w filePath).1 =
          (none, some err)) := by
  have hstruct : ∀ (V : Type) (foldRune : Char → Char) (schema : List (Field V)),
      (∃ m ∈ ms, ∃ f, findField foldRune schema m.1 = some f ∧
        f.rejects m.2) →
      ∃ err, (LoadConfig (structTarget foldRune schema) w filePath).1 = (none, some err) := by
    intro V foldRune schema hbad
    rw [LoadConfig_opened (structTarget foldRune schema) w filePath content hopen,
      structTarget_Decode_object foldRune schema content ms rest _ hread]
    have herr := storeMembers_rejected foldRune schema ms
      (structTarget foldRune schema).zero none hbad
    rcases hfold : storeMembers foldRune schema ms
      (structTarget foldRune schema).zero none with ⟨sv, _ | e⟩
    · rw [hfold] at herr
      exact absurd rfl herr
    · exact ⟨e, rfl⟩
  refine ⟨hstruct, ?_⟩
  intro foldRune fields hbad
  obtain ⟨m, hm, n, k, hfind, hwrong⟩ := hbad
  exact hstruct GoVal foldRune (basicSchema fields)
    ⟨m, hm, basicField n k, hfind, basicField_rejects n k m.2 hwrong⟩

/-- C10, amended, on the example of the specification: a string where the integer field
`Port` is expected. -/
theorem LoadConfig_type_mismatch_witness :
    ∃ err,
      (LoadConfig
        (structTarget foldRuneSample (basicSchema [("Name", .string), ("Port", .int)]))
        (oneFile "\x7b\"Name\":\"x\",\"Port\":\"80\"\x7d")
        "/etc/app.json").1 = (none, some err) :=
  (LoadConfig_type_mismatch (oneFile "\x7b\"Name\":\"x\",\"Port\":\"80\"\x7d")
    "/etc/app.json" "\x7b\"Name\":\"x\",\"Port\":\"80\"\x7d"
    [("Name", .string "x"), ("Port", .string "80")] [] (by decide) rfl).2
    foldRuneSample [("Name", .string), ("Port", .int)]
    ⟨("Port", .string "80"), by simp, "Port", .int, rfl, rfl⟩

end Config
